import Mathlib

/-!
Verification of the fhpack LZ4FH codec (fhpack.cpp).

Buffers are modelled as functions from byte index to byte value; the
compressed stream is a list of natural numbers (each intended < 256).
All definitions below are shallow embeddings of the corresponding
functions in fhpack.cpp; names follow the source.  The recursive
workhorses are written directly with Nat.rec / List.rec so that concrete
instances reduce efficiently inside the kernel; each such definition is
immediately followed by its defining equations, proved by rfl, which are
the form used in all proofs.
-/

namespace Fhpack

/-- MAX_SIZE from fhpack.cpp: full hi-res page size. -/
def MAX_SIZE : Nat := 8192

/-- MIN_SIZE from fhpack.cpp: page without the final screen hole. -/
def MIN_SIZE : Nat := MAX_SIZE - 8

/-- MAX_EXPANSION from fhpack.cpp. -/
def MAX_EXPANSION : Nat := 100

/-- MIN_MATCH_LEN from fhpack.cpp. -/
def MIN_MATCH_LEN : Nat := 4

/-- MAX_MATCH_LEN from fhpack.cpp. -/
def MAX_MATCH_LEN : Nat := 255

/-- MAX_LITERAL_LEN from fhpack.cpp. -/
def MAX_LITERAL_LEN : Nat := 255

/-- INITIAL_LEN from fhpack.cpp. -/
def INITIAL_LEN : Nat := 15

/-- EMPTY_MATCH_TOKEN from fhpack.cpp. -/
def EMPTY_MATCH_TOKEN : Nat := 253

/-- EOD_MATCH_TOKEN from fhpack.cpp. -/
def EOD_MATCH_TOKEN : Nat := 254

/-- LZ4FH_MAGIC from fhpack.cpp. -/
def LZ4FH_MAGIC : Nat := 0x66

/-- Read n consecutive bytes of the buffer f starting at position start
(models memcpy out of the input buffer). -/
def readBytes (f : Nat → Nat) (start n : Nat) : List Nat :=
  Nat.rec (motive := fun _ => Nat → List Nat)
    (fun _ => [])
    (fun _ ih s => f s :: ih (s + 1))
    n start

/-- Helper for getMatchLen.  With count fixed, scans the byte pair at index
k = count - r first and recurses on r; since the recursive value is only
demanded on equality, this walks k = count - r, count - r + 1, ... in
order and stops at the first mismatch, exactly like the C loop.  (The
index arithmetic avoids moving arguments, which the kernel reduces
slowly.) -/
def gmlAux (f : Nat → Nat) (p1 p2 count r : Nat) : Nat :=
  Nat.rec (motive := fun _ => Nat)
    0
    (fun r0 ih =>
      if f (p1 + (count - (r0 + 1))) = f (p2 + (count - (r0 + 1))) then ih + 1 else 0)
    r

/-- getMatchLen from fhpack.cpp: number of positions, up to count, on which
the byte strings at p1 and p2 agree; stops at the first mismatch. -/
def getMatchLen (f : Nat → Nat) (p1 p2 count : Nat) : Nat :=
  gmlAux f p1 p2 count count

/-- The scan loop of findLongestMatch from fhpack.cpp.  ii is the candidate
start offset, r the remaining number of candidates (so the loop runs while
ii < matchPos), acc the best (length, offset) so far.  The loop breaks when
the capped maximum length is below MIN_MATCH_LEN, and also as soon as a
candidate reaches the capped maximum length. -/
def flmLoop (f : Nat → Nat) (inLen matchPos ii r : Nat) (acc : Nat × Nat) : Nat × Nat :=
  Nat.rec (motive := fun _ => Nat → Nat × Nat → Nat × Nat)
    (fun _ acc0 => acc0)
    (fun _ ih jj acc0 =>
      let maxMatchLen := min (inLen - matchPos) MAX_MATCH_LEN
      if maxMatchLen < MIN_MATCH_LEN then acc0
      else
        let matchLen := getMatchLen f matchPos jj maxMatchLen
        let acc2 := if matchLen > acc0.1 then (matchLen, jj) else acc0
        if matchLen = maxMatchLen then acc2
        else ih (jj + 1) acc2)
    r ii acc

/-- findLongestMatch from fhpack.cpp: longest (length, offset) match for the
string at matchPos among candidate offsets 0 .. matchPos-1. -/
def findLongestMatch (f : Nat → Nat) (inLen matchPos : Nat) : Nat × Nat :=
  flmLoop f inLen matchPos 0 matchPos (0, 0)

/-- The main loop of compressBufferGreedily from fhpack.cpp.  State: current
input position inPos, pending literal count numLits, start of the pending
literal run litSrc.  Emits the byte stream for the rest of the input.
fuel bounds the number of loop iterations; each iteration advances inPos,
so fuel = inLen + 1 is always enough. -/
def greedyLoop (f : Nat → Nat) (inLen fuel inPos numLits litSrc : Nat) : List Nat :=
  Nat.rec (motive := fun _ => Nat → Nat → Nat → List Nat)
    (fun _ _ _ => [])
    (fun _ ih inPos0 numLits0 litSrc0 =>
      if inPos0 < inLen then
        let lm := findLongestMatch f inLen inPos0
        if lm.1 < MIN_MATCH_LEN then
          -- no good match here, emit as literal
          if numLits0 = MAX_LITERAL_LEN then
            -- flush the maxed-out run with an empty match indicator
            0xff :: (MAX_LITERAL_LEN - INITIAL_LEN) ::
              (readBytes f litSrc0 numLits0 ++ (EMPTY_MATCH_TOKEN ::
                ih (inPos0 + 1) 1 inPos0))
          else
            ih (inPos0 + 1) (numLits0 + 1) (if numLits0 = 0 then inPos0 else litSrc0)
        else
          -- good match found
          let longestMatch := lm.1
          let matchOffset := lm.2
          let adjustedMatch := longestMatch - MIN_MATCH_LEN
          let mixedLengths :=
            (if adjustedMatch ≤ INITIAL_LEN then adjustedMatch else INITIAL_LEN) |||
              ((if numLits0 ≤ INITIAL_LEN then numLits0 else INITIAL_LEN) <<< 4)
          mixedLengths ::
            ((if numLits0 ≥ INITIAL_LEN then [numLits0 - INITIAL_LEN] else []) ++
              (readBytes f litSrc0 numLits0 ++
                ((if adjustedMatch ≥ INITIAL_LEN then [adjustedMatch - INITIAL_LEN] else []) ++
                  ((matchOffset &&& 0xff) :: (((matchOffset >>> 8) &&& 0xff) ::
                    ih (inPos0 + longestMatch) 0 0)))))
      else
        -- dump remaining literals with the end-of-data indicator
        (if numLits0 < INITIAL_LEN then [(numLits0 <<< 4) ||| 0x0f]
          else [0xff, numLits0 - INITIAL_LEN]) ++
          (readBytes f litSrc0 numLits0 ++ [EOD_MATCH_TOKEN]))
    fuel inPos numLits litSrc

/-- compressBufferGreedily from fhpack.cpp. -/
def compressBufferGreedily (f : Nat → Nat) (inLen : Nat) : List Nat :=
  LZ4FH_MAGIC :: greedyLoop f inLen (inLen + 1) 0 0 0

/-- One record of the optimal-parse DP array (struct OptNode in fhpack.cpp).
calloc initialises every field to zero. -/
structure OptNode where
  totalCost : Nat
  matchLength : Nat
  matchOffset : Nat
  literalLength : Nat
deriving Repr, DecidableEq

/-- The all-zero OptNode produced by calloc. -/
def zeroNode : OptNode := ⟨0, 0, 0, 0⟩

/-- Indexed read of the DP array suffix (optList[i + k] when the list holds
the nodes for positions i, i+1, ...).  Reading past the end yields the
calloc zero record. -/
def nthD (l : List OptNode) (k : Nat) : OptNode :=
  List.rec (motive := fun _ => Nat → OptNode)
    (fun _ => zeroNode)
    (fun a _ ih k0 => Nat.rec (motive := fun _ => OptNode) a (fun k1 _ => ih k1) k0)
    l k

/-- Pass 1 body of compressBufferOptimally for position i, where rest lists
the already computed nodes for positions i+1 .. inLen-1 (reading past its
end yields the calloc zero record, which also stands for index inLen). -/
def optStep (f : Nat → Nat) (inLen i : Nat) (rest : List OptNode) : OptNode :=
  let lm := findLongestMatch f inLen i
  let longestMatch := lm.1
  let noMatch := longestMatch < MIN_MATCH_LEN
  -- the match fields are only recorded when a usable match exists
  -- (otherwise the calloc zeroes survive, even if the match path is chosen)
  let mfields : Nat × Nat := if noMatch then (0, 0) else (longestMatch, lm.2)
  let costForMatch :=
    if noMatch then MAX_SIZE * 2
    else
      (nthD rest (longestMatch - 1)).totalCost + 3 +
        (if longestMatch ≥ INITIAL_LEN then 1 else 0)
  -- literal path: (literalLength, costForLiteral)
  let lit : Nat × Nat :=
    if i = inLen - 1 then (1, 2)
    else
      let nxt := nthD rest 0
      if nxt.matchLength ≠ 0 then (1, 1 + nxt.totalCost)
      else if nxt.literalLength = MAX_LITERAL_LEN then (1, 3 + nxt.totalCost)
      else
        let newLiteralLen := nxt.literalLength + 1
        (newLiteralLen,
          (if newLiteralLen = INITIAL_LEN then 2 else 1) + nxt.totalCost)
  if lit.2 > costForMatch then
    ⟨costForMatch, mfields.1, mfields.2, lit.1⟩
  else
    ⟨lit.2, 0, mfields.2, lit.1⟩

/-- Evaluation-order device: forces its first argument before returning the
second.  The C loop stores each computed OptNode into the array strictly;
this combinator makes the Lean transcription store evaluated records too
(it is the identity on the second argument, see seqNat_eq). -/
def seqNat (a : Nat) (b : α) : α :=
  Nat.rec (motive := fun _ => α) b (fun _ _ => b) a

/-- Pass 1 of compressBufferOptimally: the backward loop, written with an
accumulator exactly as the C loop fills optList from the high positions
downward.  optBuild i acc prepends the nodes for positions i-1, i-2, .., 0
to acc (the nodes for positions i and beyond). -/
def optBuild (f : Nat → Nat) (inLen i : Nat) (acc : List OptNode) : List OptNode :=
  Nat.rec (motive := fun _ => List OptNode → List OptNode)
    (fun acc0 => acc0)
    (fun i0 ih acc0 =>
      let n := optStep f inLen i0 acc0
      seqNat (n.totalCost + n.matchLength + n.matchOffset + n.literalLength)
        (ih (n :: acc0)))
    i acc

/-- Non-accumulator characterisation of pass 1, used in proofs:
optPass1 k is the node list for positions inLen-k .. inLen-1. -/
def optPass1 (f : Nat → Nat) (inLen : Nat) : Nat → List OptNode
  | 0 => []
  | k + 1 => optStep f inLen (inLen - (k + 1)) (optPass1 f inLen k) :: optPass1 f inLen k

/-- Pass 2 of compressBufferOptimally: generate output walking the optimal
path forward.  nodes is the node list for positions i .. inLen-1; numLits
and litSrc describe the pending literal run, as in the greedy encoder. -/
def optEmit (f : Nat → Nat) (inLen fuel : Nat) (nodes : List OptNode)
    (i numLits litSrc : Nat) : List Nat :=
  Nat.rec (motive := fun _ => List OptNode → Nat → Nat → Nat → List Nat)
    (fun _ _ _ _ => [])
    (fun _ ih nodes0 i0 numLits0 litSrc0 =>
      if i0 < inLen then
        let node := nodes0.headD zeroNode
        if node.matchLength = 0 then
          -- literal node: flush any previous run (literal follows literal),
          -- then adopt this run and advance
          (if numLits0 ≠ 0 then
            (if numLits0 < INITIAL_LEN then [(numLits0 <<< 4) ||| 0x0f]
              else [0xff, numLits0 - INITIAL_LEN]) ++
              (readBytes f litSrc0 numLits0 ++ [EMPTY_MATCH_TOKEN])
            else []) ++
            ih (nodes0.drop node.literalLength) (i0 + node.literalLength)
              node.literalLength i0
        else
          -- match node: emit pending literals and the match in one chunk
          let longestMatch := node.matchLength
          let matchOffset := node.matchOffset
          let adjustedMatch := longestMatch - MIN_MATCH_LEN
          let mixedLengths :=
            (if adjustedMatch ≤ INITIAL_LEN then adjustedMatch else INITIAL_LEN) |||
              ((if numLits0 ≤ INITIAL_LEN then numLits0 else INITIAL_LEN) <<< 4)
          mixedLengths ::
            ((if numLits0 ≥ INITIAL_LEN then [numLits0 - INITIAL_LEN] else []) ++
              (readBytes f litSrc0 numLits0 ++
                ((if adjustedMatch ≥ INITIAL_LEN then [adjustedMatch - INITIAL_LEN] else []) ++
                  ((matchOffset &&& 0xff) :: (((matchOffset >>> 8) &&& 0xff) ::
                    ih (nodes0.drop longestMatch) (i0 + longestMatch) 0 0)))))
      else
        (if numLits0 < INITIAL_LEN then [(numLits0 <<< 4) ||| 0x0f]
          else [0xff, numLits0 - INITIAL_LEN]) ++
          (readBytes f litSrc0 numLits0 ++ [EOD_MATCH_TOKEN]))
    fuel nodes i numLits litSrc

/-- compressBufferOptimally from fhpack.cpp. -/
def compressBufferOptimally (f : Nat → Nat) (inLen : Nat) : List Nat :=
  LZ4FH_MAGIC :: optEmit f inLen (inLen + 1) (optBuild f inLen inLen []) 0 0 0

/-- The match-rejection test of uncompressBuffer: the only conditions under
which a match chunk is refused are output overrun past MAX_SIZE and the
source region offset+len reaching past MAX_SIZE. -/
def matchGuard (outLen matchOffset matchLen : Nat) : Bool :=
  decide (outLen + matchLen > MAX_SIZE) || decide (matchOffset + matchLen > MAX_SIZE)

/-- The byte-by-byte overlapping match copy of uncompressBuffer.  w is the
output written so far, src the absolute source index; a read below the
write position returns previously written output, a read at or beyond it
returns the preexisting contents g of the output buffer. -/
def matchCopy (g : Nat → Nat) (count : Nat) (w : List Nat) (src : Nat) : List Nat :=
  Nat.rec (motive := fun _ => List Nat → Nat → List Nat)
    (fun w0 _ => w0)
    (fun _ ih w0 src0 =>
      ih (w0 ++ [if src0 < w0.length then w0.getD src0 0 else g src0]) (src0 + 1))
    count w src

/-- The chunk loop of uncompressBuffer from fhpack.cpp.  inp is the input
byte stream still ahead of the read pointer, consumed the number of bytes
already read (the C code checks this against inLen only before a literal
copy), w the output written so far, g the preexisting contents of the
output buffer.  Returns none on the buffer-overrun error paths (the C code
returns 0); fuel only guards termination and is always sufficient for the
callers below. -/
def decodeLoop (inLen : Nat) (g : Nat → Nat) (fuel : Nat) (inp : List Nat)
    (consumed : Nat) (w : List Nat) : Option (List Nat) :=
  Nat.rec (motive := fun _ => List Nat → Nat → List Nat → Option (List Nat))
    (fun _ _ _ => none)
    (fun _ ih inp0 consumed0 w0 =>
      let mixedLen := inp0.headD 0
      let inp1 := inp0.tail
      let consumed1 := consumed0 + 1
      -- literal part
      let litRes : Option (List Nat × Nat × List Nat) :=
        if mixedLen >>> 4 ≠ 0 then
          let litExt := mixedLen >>> 4 = INITIAL_LEN
          let literalLen := if litExt then INITIAL_LEN + inp1.headD 0 else mixedLen >>> 4
          let inp2 := if litExt then inp1.tail else inp1
          let consumed2 := if litExt then consumed1 + 1 else consumed1
          if w0.length + literalLen > MAX_SIZE ∨ consumed2 + literalLen > inLen then none
          else some (inp2.drop literalLen, consumed2 + literalLen, w0 ++ inp2.take literalLen)
        else some (inp1, consumed1, w0)
      match litRes with
      | none => none
      | some (inp3, consumed3, w3) =>
        -- match part
        let contMatch : Nat → List Nat → Nat → Option (List Nat) :=
          fun matchLen inp4 consumed4 =>
            let matchOffset := inp4.headD 0 ||| (inp4.tail.headD 0 <<< 8)
            if matchGuard w3.length matchOffset matchLen then none
            else
              ih inp4.tail.tail (consumed4 + 2) (matchCopy g matchLen w3 matchOffset)
        let matchNib := mixedLen &&& 0x0f
        if matchNib = INITIAL_LEN then
          let addon := inp3.headD 0
          if addon = EMPTY_MATCH_TOKEN then
            -- no match in this chunk
            ih inp3.tail (consumed3 + 1) w3
          else if addon = EOD_MATCH_TOKEN then
            -- end of data
            some w3
          else contMatch (matchNib + addon + MIN_MATCH_LEN) inp3.tail (consumed3 + 1)
        else contMatch (matchNib + MIN_MATCH_LEN) inp3 consumed3)
    fuel inp consumed w

/-- uncompressBuffer from fhpack.cpp.  inp is the physical input stream
(the bytes actually sitting in the buffer), inLen the declared input
length, g the preexisting contents of the caller-supplied output buffer.
Returns the decoded output bytes on success, none on error. -/
def uncompressBuffer (inp : List Nat) (inLen : Nat) (g : Nat → Nat) : Option (List Nat) :=
  if inp.headD 0 = LZ4FH_MAGIC then
    decodeLoop inLen g (inp.length + MAX_SIZE) inp.tail 1 []
  else none

/-- Pointwise update of a buffer. -/
def updBuf (f : Nat → Nat) (j v : Nat) : Nat → Nat :=
  fun x => if x = j then v else f x

/-- memset(p, 0, n): zero n bytes starting at h. -/
def setZeroRange (f : Nat → Nat) (h n : Nat) : Nat → Nat :=
  Nat.rec (motive := fun _ => Nat → Nat)
    f
    (fun n0 ih => updBuf ih (h + n0) 0)
    n

/-- The 64 screen hole offsets 120 + 128k visited by the loops in
zeroHoles and fillHoles. -/
def holeOffsets : List Nat := (List.range 64).map (fun k => 120 + 128 * k)

/-- zeroHoles from fhpack.cpp. -/
def zeroHoles (f : Nat → Nat) : Nat → Nat :=
  holeOffsets.foldl (fun g h => setZeroRange g h 8) f

/-- The backward 8-byte overlapping copy of fillHoles (use the bytes after
the hole): for i = 7 down to 0, b[h+i] := b[h+i+2]. -/
def fillHoleAfter (g : Nat → Nat) (h : Nat) : Nat → Nat :=
  [7, 6, 5, 4, 3, 2, 1, 0].foldl (fun b i => updBuf b (h + i) (b (h + i + 2))) g

/-- The forward 8-byte overlapping copy of fillHoles (use the bytes before
the hole): for i = 0 to 7, b[h+i] := b[h+i-2]. -/
def fillHoleBefore (g : Nat → Nat) (h : Nat) : Nat → Nat :=
  [0, 1, 2, 3, 4, 5, 6, 7].foldl (fun b i => updBuf b (h + i) (b (h + i - 2))) g

/-- fillHoles from fhpack.cpp. -/
def fillHoles (f : Nat → Nat) : Nat → Nat :=
  holeOffsets.foldl (fun g h =>
    if h + 8 < MAX_SIZE ∧ g (h + 8) = g (h + 10) ∧ g (h + 9) = g (h + 11) then
      fillHoleAfter g h
    else fillHoleBefore g h) f

/-- The buffer-level logic of compressFile from fhpack.cpp when hole
preservation is disabled: compress the zero-filled copy and the
content-filled copy of the (MIN_SIZE byte) source and keep the smaller
output, preferring the zero-filled variant on ties. -/
def compressTwice (f : Nat → Nat) (useGreedyParsing : Bool) : List Nat :=
  let sourceLen := MIN_SIZE
  let inBuf1 := zeroHoles f
  let out1 :=
    if useGreedyParsing then compressBufferGreedily inBuf1 sourceLen
    else compressBufferOptimally inBuf1 sourceLen
  let inBuf2 := fillHoles f
  let out2 :=
    if useGreedyParsing then compressBufferGreedily inBuf2 sourceLen
    else compressBufferOptimally inBuf2 sourceLen
  if out1.length ≤ out2.length then out1 else out2

/-- Spec 4.1 candidate length: the capped common-prefix length of the
candidate at offset ii against the string at matchPos.  This is the value
the findLongestMatch loop computes for candidate ii. -/
def candLen (f : Nat → Nat) (inLen matchPos ii : Nat) : Nat :=
  getMatchLen f matchPos ii (min (inLen - matchPos) MAX_MATCH_LEN)

/-- Scanner over the chunk structure of a compressed stream (after the
magic byte), following exactly the walk of uncompressBuffer: returns true
when the stream is a well-delimited chunk sequence ending in the
end-of-data token whose every literal-length extension byte is at most
240 (format comment, fhpack.cpp lines 52-53). -/
def litExtScan (fuel : Nat) (inp : List Nat) : Bool :=
  Nat.rec (motive := fun _ => List Nat → Bool)
    (fun _ => false)
    (fun _ ih inp0 =>
      let mixedLen := inp0.headD 0
      let inp1 := inp0.tail
      let litExt := mixedLen >>> 4 = INITIAL_LEN
      let extByte := inp1.headD 0
      let literalLen := if litExt then INITIAL_LEN + extByte else mixedLen >>> 4
      let inp2 := if litExt then inp1.tail else inp1
      let extOk := if litExt then decide (extByte ≤ 240) else true
      let inp3 := inp2.drop literalLen
      let matchNib := mixedLen &&& 0x0f
      extOk &&
        (if matchNib = INITIAL_LEN then
          let addon := inp3.headD 0
          if addon = EMPTY_MATCH_TOKEN then ih inp3.tail
          else if addon = EOD_MATCH_TOKEN then true
          else ih (inp3.tail.drop 2)
        else ih (inp3.drop 2)))
    fuel inp

/-- All literal-length extension bytes of a compressed stream are at most
240 (and the stream is well formed).  The magic byte is skipped, as in
uncompressBuffer. -/
def literalExtsBounded (out : List Nat) : Bool :=
  litExtScan (out.length + 1) out.tail

/-- Witness input for the optimal-vs-greedy comparison: a 15-byte string
(bytes 1..15), a separator 16, the same 15-byte string again, a separator
17, then a repetition-free tail built from byte pairs (the pair at index k
encodes k in base 64 using disjoint value ranges 128..191 / 192..255, so
no 4 consecutive bytes ever recur and the tail compresses as pure
literals). -/
def c4buf : Nat → Nat := fun n =>
  if n < 15 then n + 1
  else if n = 15 then 16
  else if n < 31 then n - 15
  else if n = 31 then 17
  else if (n - 32) % 2 = 0 then 128 + ((n - 32) / 2) / 64 else 192 + ((n - 32) / 2) % 64

/-- Literal-run length of the optimal-parse node r bytes before the end of
a repetition-free stretch reaching the end of the input: runs ripple in
blocks of 255. -/
def litLenForm (r : Nat) : Nat := (r - 1) % 255 + 1

/-- Total cost of the optimal-parse node r bytes before the end of a
repetition-free stretch: one byte per literal, one mixed byte, plus one
extension byte per 15-crossing and a mixed byte and empty-match token per
run boundary. -/
def costForm (r : Nat) : Nat :=
  r + 1 + (if 15 ≤ r then (r - 15) / 255 + 1 else 0) +
    2 * (if 256 ≤ r then (r - 256) / 255 + 1 else 0)

/-- The optimal-parse DP node at r bytes before the end of a
repetition-free stretch of c4buf. -/
def tailNode (r : Nat) : OptNode := ⟨costForm r, 0, 0, litLenForm r⟩

/-- The DP node list for the last k positions of c4buf (all inside the
repetition-free tail). -/
def tailNodes : Nat → List OptNode
  | 0 => []
  | k + 1 => tailNode (k + 1) :: tailNodes k

/-- The DP nodes for positions 0..31 of c4buf at input length 8184 (the
gadget region).  Node 16 is the decisive one: the 15-byte match there is
overcharged one byte by the cost model, producing a tie that the code
breaks toward the literal path. -/
def gadgetNodes : List OptNode :=
  [⟨8269, 0, 0, 17⟩, ⟨8268, 0, 0, 16⟩, ⟨8267, 0, 0, 15⟩, ⟨8265, 0, 0, 14⟩,
   ⟨8264, 0, 0, 13⟩, ⟨8263, 0, 0, 12⟩, ⟨8262, 0, 0, 11⟩, ⟨8261, 0, 0, 10⟩,
   ⟨8260, 0, 0, 9⟩, ⟨8259, 0, 0, 8⟩, ⟨8258, 0, 0, 7⟩, ⟨8257, 0, 0, 6⟩,
   ⟨8256, 0, 0, 5⟩, ⟨8255, 0, 0, 4⟩, ⟨8254, 0, 0, 3⟩, ⟨8253, 0, 0, 2⟩,
   ⟨8252, 0, 0, 1⟩, ⟨8251, 14, 1, 1⟩, ⟨8251, 13, 2, 1⟩, ⟨8251, 12, 3, 1⟩,
   ⟨8251, 11, 4, 1⟩, ⟨8251, 10, 5, 1⟩, ⟨8251, 9, 6, 1⟩, ⟨8251, 8, 7, 1⟩,
   ⟨8251, 7, 8, 1⟩, ⟨8251, 6, 9, 1⟩, ⟨8251, 5, 10, 1⟩, ⟨8251, 4, 11, 252⟩,
   ⟨8251, 0, 0, 251⟩, ⟨8250, 0, 0, 250⟩, ⟨8249, 0, 0, 249⟩, ⟨8248, 0, 0, 248⟩]

/-! ### Defining equations and basic lemmas -/

theorem readBytes_zero (f : Nat → Nat) (start : Nat) : readBytes f start 0 = [] := rfl

theorem readBytes_succ (f : Nat → Nat) (start n : Nat) :
    readBytes f start (n + 1) = f start :: readBytes f (start + 1) n := rfl

theorem gmlAux_zero (f : Nat → Nat) (p1 p2 count : Nat) : gmlAux f p1 p2 count 0 = 0 := rfl

theorem gmlAux_succ (f : Nat → Nat) (p1 p2 count r : Nat) :
    gmlAux f p1 p2 count (r + 1) =
      (if f (p1 + (count - (r + 1))) = f (p2 + (count - (r + 1))) then
        gmlAux f p1 p2 count r + 1
      else 0) := rfl

/-- Shifting gmlAux: with one more total position at the front, the scanned
indices coincide after shifting both strings by one. -/
theorem gmlAux_shift (f : Nat → Nat) (p1 p2 count : Nat) :
    ∀ r, r ≤ count → gmlAux f p1 p2 (count + 1) r = gmlAux f (p1 + 1) (p2 + 1) count r := by
  intro r
  induction r with
  | zero => intro _; rfl
  | succ r0 ihr =>
    intro hle
    rw [gmlAux_succ, gmlAux_succ, ihr (Nat.le_of_succ_le hle)]
    have h1 : p1 + (count + 1 - (r0 + 1)) = p1 + 1 + (count - (r0 + 1)) := by omega
    have h2 : p2 + (count + 1 - (r0 + 1)) = p2 + 1 + (count - (r0 + 1)) := by omega
    rw [h1, h2]

theorem getMatchLen_zero (f : Nat → Nat) (p1 p2 : Nat) : getMatchLen f p1 p2 0 = 0 := rfl

theorem getMatchLen_succ (f : Nat → Nat) (p1 p2 c : Nat) :
    getMatchLen f p1 p2 (c + 1) =
      (if f p1 = f p2 then getMatchLen f (p1 + 1) (p2 + 1) c + 1 else 0) := by
  show gmlAux f p1 p2 (c + 1) (c + 1) = _
  rw [gmlAux_succ, gmlAux_shift f p1 p2 c c (Nat.le_refl c)]
  simp [getMatchLen]

theorem flmLoop_zero (f : Nat → Nat) (inLen matchPos ii : Nat) (acc : Nat × Nat) :
    flmLoop f inLen matchPos ii 0 acc = acc := rfl

theorem flmLoop_succ (f : Nat → Nat) (inLen matchPos ii r : Nat) (acc : Nat × Nat) :
    flmLoop f inLen matchPos ii (r + 1) acc =
      (let maxMatchLen := min (inLen - matchPos) MAX_MATCH_LEN
       if maxMatchLen < MIN_MATCH_LEN then acc
       else
         let matchLen := getMatchLen f matchPos ii maxMatchLen
         let acc2 := if matchLen > acc.1 then (matchLen, ii) else acc
         if matchLen = maxMatchLen then acc2
         else flmLoop f inLen matchPos (ii + 1) r acc2) := rfl

theorem greedyLoop_zero (f : Nat → Nat) (inLen inPos numLits litSrc : Nat) :
    greedyLoop f inLen 0 inPos numLits litSrc = [] := rfl

theorem greedyLoop_succ (f : Nat → Nat) (inLen fuel inPos numLits litSrc : Nat) :
    greedyLoop f inLen (fuel + 1) inPos numLits litSrc =
      (if inPos < inLen then
        let lm := findLongestMatch f inLen inPos
        if lm.1 < MIN_MATCH_LEN then
          if numLits = MAX_LITERAL_LEN then
            0xff :: (MAX_LITERAL_LEN - INITIAL_LEN) ::
              (readBytes f litSrc numLits ++ (EMPTY_MATCH_TOKEN ::
                greedyLoop f inLen fuel (inPos + 1) 1 inPos))
          else
            greedyLoop f inLen fuel (inPos + 1) (numLits + 1)
              (if numLits = 0 then inPos else litSrc)
        else
          let longestMatch := lm.1
          let matchOffset := lm.2
          let adjustedMatch := longestMatch - MIN_MATCH_LEN
          let mixedLengths :=
            (if adjustedMatch ≤ INITIAL_LEN then adjustedMatch else INITIAL_LEN) |||
              ((if numLits ≤ INITIAL_LEN then numLits else INITIAL_LEN) <<< 4)
          mixedLengths ::
            ((if numLits ≥ INITIAL_LEN then [numLits - INITIAL_LEN] else []) ++
              (readBytes f litSrc numLits ++
                ((if adjustedMatch ≥ INITIAL_LEN then [adjustedMatch - INITIAL_LEN] else []) ++
                  ((matchOffset &&& 0xff) :: (((matchOffset >>> 8) &&& 0xff) ::
                    greedyLoop f inLen fuel (inPos + longestMatch) 0 0)))))
      else
        (if numLits < INITIAL_LEN then [(numLits <<< 4) ||| 0x0f]
          else [0xff, numLits - INITIAL_LEN]) ++
          (readBytes f litSrc numLits ++ [EOD_MATCH_TOKEN])) := rfl

theorem nthD_nil (k : Nat) : nthD [] k = zeroNode := rfl

theorem nthD_cons_zero (a : OptNode) (l : List OptNode) : nthD (a :: l) 0 = a := rfl

theorem nthD_cons_succ (a : OptNode) (l : List OptNode) (k : Nat) :
    nthD (a :: l) (k + 1) = nthD l k := rfl

theorem seqNat_eq (a : Nat) (b : α) : seqNat a b = b := by
  cases a <;> rfl

theorem optBuild_zero (f : Nat → Nat) (inLen : Nat) (acc : List OptNode) :
    optBuild f inLen 0 acc = acc := rfl

theorem optBuild_succ (f : Nat → Nat) (inLen i : Nat) (acc : List OptNode) :
    optBuild f inLen (i + 1) acc = optBuild f inLen i (optStep f inLen i acc :: acc) := by
  show seqNat _ _ = _
  rw [seqNat_eq]
  rfl

theorem optEmit_zero (f : Nat → Nat) (inLen : Nat) (nodes : List OptNode)
    (i numLits litSrc : Nat) : optEmit f inLen 0 nodes i numLits litSrc = [] := rfl

theorem optEmit_succ (f : Nat → Nat) (inLen fuel : Nat) (nodes : List OptNode)
    (i numLits litSrc : Nat) :
    optEmit f inLen (fuel + 1) nodes i numLits litSrc =
      (if i < inLen then
        let node := nodes.headD zeroNode
        if node.matchLength = 0 then
          (if numLits ≠ 0 then
            (if numLits < INITIAL_LEN then [(numLits <<< 4) ||| 0x0f]
              else [0xff, numLits - INITIAL_LEN]) ++
              (readBytes f litSrc numLits ++ [EMPTY_MATCH_TOKEN])
            else []) ++
            optEmit f inLen fuel (nodes.drop node.literalLength) (i + node.literalLength)
              node.literalLength i
        else
          let longestMatch := node.matchLength
          let matchOffset := node.matchOffset
          let adjustedMatch := longestMatch - MIN_MATCH_LEN
          let mixedLengths :=
            (if adjustedMatch ≤ INITIAL_LEN then adjustedMatch else INITIAL_LEN) |||
              ((if numLits ≤ INITIAL_LEN then numLits else INITIAL_LEN) <<< 4)
          mixedLengths ::
            ((if numLits ≥ INITIAL_LEN then [numLits - INITIAL_LEN] else []) ++
              (readBytes f litSrc numLits ++
                ((if adjustedMatch ≥ INITIAL_LEN then [adjustedMatch - INITIAL_LEN] else []) ++
                  ((matchOffset &&& 0xff) :: (((matchOffset >>> 8) &&& 0xff) ::
                    optEmit f inLen fuel (nodes.drop longestMatch) (i + longestMatch) 0 0)))))
      else
        (if numLits < INITIAL_LEN then [(numLits <<< 4) ||| 0x0f]
          else [0xff, numLits - INITIAL_LEN]) ++
          (readBytes f litSrc numLits ++ [EOD_MATCH_TOKEN])) := rfl

theorem matchCopy_zero (g : Nat → Nat) (w : List Nat) (src : Nat) :
    matchCopy g 0 w src = w := rfl

theorem matchCopy_succ (g : Nat → Nat) (c : Nat) (w : List Nat) (src : Nat) :
    matchCopy g (c + 1) w src =
      matchCopy g c (w ++ [if src < w.length then w.getD src 0 else g src]) (src + 1) := rfl

theorem decodeLoop_zero (inLen : Nat) (g : Nat → Nat) (inp : List Nat)
    (consumed : Nat) (w : List Nat) : decodeLoop inLen g 0 inp consumed w = none := rfl

theorem decodeLoop_succ (inLen : Nat) (g : Nat → Nat) (fuel : Nat) (inp : List Nat)
    (consumed : Nat) (w : List Nat) :
    decodeLoop inLen g (fuel + 1) inp consumed w =
      (let mixedLen := inp.headD 0
       let inp1 := inp.tail
       let consumed1 := consumed + 1
       let litRes : Option (List Nat × Nat × List Nat) :=
         if mixedLen >>> 4 ≠ 0 then
           let litExt := mixedLen >>> 4 = INITIAL_LEN
           let literalLen := if litExt then INITIAL_LEN + inp1.headD 0 else mixedLen >>> 4
           let inp2 := if litExt then inp1.tail else inp1
           let consumed2 := if litExt then consumed1 + 1 else consumed1
           if w.length + literalLen > MAX_SIZE ∨ consumed2 + literalLen > inLen then none
           else some (inp2.drop literalLen, consumed2 + literalLen, w ++ inp2.take literalLen)
         else some (inp1, consumed1, w)
       match litRes with
       | none => none
       | some (inp3, consumed3, w3) =>
         let contMatch : Nat → List Nat → Nat → Option (List Nat) :=
           fun matchLen inp4 consumed4 =>
             let matchOffset := inp4.headD 0 ||| (inp4.tail.headD 0 <<< 8)
             if matchGuard w3.length matchOffset matchLen then none
             else
               decodeLoop inLen g fuel inp4.tail.tail (consumed4 + 2)
                 (matchCopy g matchLen w3 matchOffset)
         let matchNib := mixedLen &&& 0x0f
         if matchNib = INITIAL_LEN then
           let addon := inp3.headD 0
           if addon = EMPTY_MATCH_TOKEN then
             decodeLoop inLen g fuel inp3.tail (consumed3 + 1) w3
           else if addon = EOD_MATCH_TOKEN then
             some w3
           else contMatch (matchNib + addon + MIN_MATCH_LEN) inp3.tail (consumed3 + 1)
         else contMatch (matchNib + MIN_MATCH_LEN) inp3 consumed3) := rfl

theorem setZeroRange_zero (f : Nat → Nat) (h : Nat) : setZeroRange f h 0 = f := rfl

theorem setZeroRange_succ (f : Nat → Nat) (h n : Nat) :
    setZeroRange f h (n + 1) = updBuf (setZeroRange f h n) (h + n) 0 := rfl


/-! ### getMatchLen specification -/

theorem getMatchLen_le (f : Nat → Nat) (p1 p2 c : Nat) : getMatchLen f p1 p2 c ≤ c := by
  induction c generalizing p1 p2 with
  | zero => simp [getMatchLen_zero]
  | succ c0 ih =>
    rw [getMatchLen_succ]
    split
    · exact Nat.succ_le_succ (ih (p1 + 1) (p2 + 1))
    · exact Nat.zero_le _

theorem getMatchLen_agrees (f : Nat → Nat) (p1 p2 c : Nat) :
    ∀ j, j < getMatchLen f p1 p2 c → f (p1 + j) = f (p2 + j) := by
  induction c generalizing p1 p2 with
  | zero => simp [getMatchLen_zero]
  | succ c0 ih =>
    rw [getMatchLen_succ]
    split
    · next heq =>
      intro j hj
      cases j with
      | zero => simpa using heq
      | succ j0 =>
        have h := ih (p1 + 1) (p2 + 1) j0 (by omega)
        have e1 : p1 + (j0 + 1) = p1 + 1 + j0 := by omega
        have e2 : p2 + (j0 + 1) = p2 + 1 + j0 := by omega
        rw [e1, e2]; exact h
    · intro j hj; exact absurd hj (Nat.not_lt_zero j)

theorem getMatchLen_max (f : Nat → Nat) (p1 p2 c m : Nat)
    (hm : m ≤ c) (hagree : ∀ j, j < m → f (p1 + j) = f (p2 + j)) :
    m ≤ getMatchLen f p1 p2 c := by
  induction c generalizing p1 p2 m with
  | zero => omega
  | succ c0 ih =>
    rw [getMatchLen_succ]
    cases m with
    | zero => exact Nat.zero_le _
    | succ m0 =>
      have h0 : f p1 = f p2 := by simpa using hagree 0 (by omega)
      rw [if_pos h0]
      have hrec : m0 ≤ getMatchLen f (p1 + 1) (p2 + 1) c0 := by
        refine ih (p1 + 1) (p2 + 1) m0 (by omega) (fun j hj => ?_)
        have h := hagree (j + 1) (by omega)
        have e1 : p1 + (j + 1) = p1 + 1 + j := by omega
        have e2 : p2 + (j + 1) = p2 + 1 + j := by omega
        rw [e1, e2] at h; exact h
      omega

/-! ### findLongestMatch specification -/

theorem candLen_le_cap (f : Nat → Nat) (inLen p ii : Nat) :
    candLen f inLen p ii ≤ min (inLen - p) MAX_MATCH_LEN :=
  getMatchLen_le f p ii _

theorem flmLoop_low_cap (f : Nat → Nat) (inLen matchPos : Nat)
    (h : min (inLen - matchPos) MAX_MATCH_LEN < MIN_MATCH_LEN) :
    ∀ r ii acc, flmLoop f inLen matchPos ii r acc = acc := by
  intro r
  induction r with
  | zero => intro ii acc; exact flmLoop_zero f inLen matchPos ii acc
  | succ r0 _ =>
    intro ii acc
    rw [flmLoop_succ]
    simp only [if_pos h]

theorem findLongestMatch_low_cap (f : Nat → Nat) (inLen p : Nat)
    (h : min (inLen - p) MAX_MATCH_LEN < MIN_MATCH_LEN) :
    findLongestMatch f inLen p = (0, 0) :=
  flmLoop_low_cap f inLen p h p 0 (0, 0)

theorem flmLoop_invariant (f : Nat → Nat) (inLen matchPos : Nat)
    (hcap : MIN_MATCH_LEN ≤ min (inLen - matchPos) MAX_MATCH_LEN) :
    ∀ r ii acc,
      ii + r = matchPos →
      (∀ jj, jj < ii → candLen f inLen matchPos jj ≤ acc.1) →
      (acc.1 = 0 → acc = (0, 0)) →
      (acc.1 ≠ 0 → acc.2 < ii ∧ candLen f inLen matchPos acc.2 = acc.1 ∧
        ∀ jj, jj < acc.2 → candLen f inLen matchPos jj < acc.1) →
      ((∀ jj, jj < matchPos →
          candLen f inLen matchPos jj ≤ (flmLoop f inLen matchPos ii r acc).1) ∧
       ((flmLoop f inLen matchPos ii r acc).1 = 0 →
          flmLoop f inLen matchPos ii r acc = (0, 0)) ∧
       ((flmLoop f inLen matchPos ii r acc).1 ≠ 0 →
          (flmLoop f inLen matchPos ii r acc).2 < matchPos ∧
          candLen f inLen matchPos (flmLoop f inLen matchPos ii r acc).2 =
            (flmLoop f inLen matchPos ii r acc).1 ∧
          ∀ jj, jj < (flmLoop f inLen matchPos ii r acc).2 →
            candLen f inLen matchPos jj <
              (flmLoop f inLen matchPos ii r acc).1)) := by
  intro r
  induction r with
  | zero =>
    intro ii acc hii hle h0 hpos
    rw [flmLoop_zero]
    refine ⟨fun jj hjj => hle jj (by omega), h0, fun hne => ?_⟩
    obtain ⟨h1, h2, h3⟩ := hpos hne
    exact ⟨by omega, h2, h3⟩
  | succ r0 ih =>
    intro ii acc hii hle h0 hpos
    rw [flmLoop_succ]
    rw [if_neg (by omega)]
    have hml : getMatchLen f matchPos ii (min (inLen - matchPos) MAX_MATCH_LEN) =
        candLen f inLen matchPos ii := rfl
    simp only [hml]
    set ml := candLen f inLen matchPos ii with hml2
    have hmlcap : ml ≤ min (inLen - matchPos) MAX_MATCH_LEN := candLen_le_cap f inLen matchPos ii
    have hiilt : ii < matchPos := by omega
    by_cases hgt : ml > acc.1
    · rw [if_pos hgt]
      by_cases hbreak : ml = min (inLen - matchPos) MAX_MATCH_LEN
      · rw [if_pos hbreak]
        refine ⟨fun jj hjj => ?_, ?_, fun _ => ⟨hiilt, rfl, fun jj hjj => ?_⟩⟩
        · calc candLen f inLen matchPos jj ≤ min (inLen - matchPos) MAX_MATCH_LEN :=
                candLen_le_cap f inLen matchPos jj
            _ = ml := hbreak.symm
        · intro hz; exfalso; omega
        · exact Nat.lt_of_le_of_lt (hle jj hjj) hgt
      · rw [if_neg hbreak]
        refine ih (ii + 1) (ml, ii) (by omega) (fun jj hjj => ?_) (fun hz => ?_)
          (fun _ => ⟨by omega, rfl, fun jj hjj => Nat.lt_of_le_of_lt (hle jj hjj) hgt⟩)
        · rcases Nat.lt_succ_iff_lt_or_eq.mp hjj with h | h
          · exact Nat.le_of_lt (Nat.lt_of_le_of_lt (hle jj h) hgt)
          · subst h; exact Nat.le_refl _
        · exfalso; simp at hz; omega
    · rw [if_neg hgt]
      by_cases hbreak : ml = min (inLen - matchPos) MAX_MATCH_LEN
      · rw [if_pos hbreak]
        have haccle : acc.1 ≤ min (inLen - matchPos) MAX_MATCH_LEN := by
          by_cases hz : acc.1 = 0
          · omega
          · obtain ⟨_, h2, _⟩ := hpos hz
            rw [← h2]; exact candLen_le_cap f inLen matchPos acc.2
        have hacc1 : acc.1 = min (inLen - matchPos) MAX_MATCH_LEN := by omega
        refine ⟨fun jj hjj => ?_, h0, fun hne => ?_⟩
        · rw [hacc1]; exact candLen_le_cap f inLen matchPos jj
        · obtain ⟨h1, h2, h3⟩ := hpos hne
          exact ⟨by omega, h2, h3⟩
      · rw [if_neg hbreak]
        refine ih (ii + 1) acc (by omega) (fun jj hjj => ?_) h0 (fun hne => ?_)
        · rcases Nat.lt_succ_iff_lt_or_eq.mp hjj with h | h
          · exact hle jj h
          · subst h; omega
        · obtain ⟨h1, h2, h3⟩ := hpos hne
          exact ⟨by omega, h2, h3⟩

theorem findLongestMatch_spec (f : Nat → Nat) (inLen p : Nat)
    (hcap : MIN_MATCH_LEN ≤ min (inLen - p) MAX_MATCH_LEN) :
    (∀ jj, jj < p → candLen f inLen p jj ≤ (findLongestMatch f inLen p).1) ∧
    ((findLongestMatch f inLen p).1 = 0 → findLongestMatch f inLen p = (0, 0)) ∧
    ((findLongestMatch f inLen p).1 ≠ 0 →
      (findLongestMatch f inLen p).2 < p ∧
      candLen f inLen p (findLongestMatch f inLen p).2 = (findLongestMatch f inLen p).1 ∧
      ∀ jj, jj < (findLongestMatch f inLen p).2 →
        candLen f inLen p jj < (findLongestMatch f inLen p).1) := by
  refine flmLoop_invariant f inLen p hcap p 0 (0, 0) (by omega)
    (fun jj hjj => absurd hjj (Nat.not_lt_zero jj)) (fun _ => rfl) (fun hne => absurd rfl hne)

theorem findLongestMatch_le_cap (f : Nat → Nat) (inLen p : Nat) :
    (findLongestMatch f inLen p).1 ≤ min (inLen - p) MAX_MATCH_LEN := by
  by_cases hcap : MIN_MATCH_LEN ≤ min (inLen - p) MAX_MATCH_LEN
  · obtain ⟨_, h0, hpos⟩ := findLongestMatch_spec f inLen p hcap
    by_cases hz : (findLongestMatch f inLen p).1 = 0
    · omega
    · obtain ⟨_, h2, _⟩ := hpos hz
      rw [← h2]; exact candLen_le_cap f inLen p _
  · rw [findLongestMatch_low_cap f inLen p (by omega)]
    exact Nat.zero_le _

theorem findLongestMatch_bytes (f : Nat → Nat) (inLen p : Nat)
    (hne : (findLongestMatch f inLen p).1 ≠ 0) :
    (findLongestMatch f inLen p).2 < p ∧
    ∀ j, j < (findLongestMatch f inLen p).1 →
      f ((findLongestMatch f inLen p).2 + j) = f (p + j) := by
  by_cases hcap : MIN_MATCH_LEN ≤ min (inLen - p) MAX_MATCH_LEN
  · obtain ⟨_, _, hpos⟩ := findLongestMatch_spec f inLen p hcap
    obtain ⟨h1, h2, _⟩ := hpos hne
    refine ⟨h1, fun j hj => ?_⟩
    have h := getMatchLen_agrees f p (findLongestMatch f inLen p).2
      (min (inLen - p) MAX_MATCH_LEN) j (lt_of_lt_of_eq hj h2.symm)
    exact h.symm
  · exfalso
    rw [findLongestMatch_low_cap f inLen p (by omega)] at hne
    exact hne rfl

theorem findLongestMatch_ge (f : Nat → Nat) (inLen p ii : Nat) (hii : ii < p)
    (hcap : MIN_MATCH_LEN ≤ candLen f inLen p ii) :
    candLen f inLen p ii ≤ (findLongestMatch f inLen p).1 := by
  have h4 : MIN_MATCH_LEN ≤ min (inLen - p) MAX_MATCH_LEN :=
    Nat.le_trans hcap (candLen_le_cap f inLen p ii)
  exact (findLongestMatch_spec f inLen p h4).1 ii hii

/-- Claim C3.  For every buffer f of length inLen and position p in it,
findLongestMatch returns the longest capped candidate match: the returned
length never exceeds min(255, inLen - p); a length of at least 4 is
returned exactly when some candidate offset below p has capped common
prefix of length at least 4, and in that case the returned pair is the
maximal candidate length together with the smallest offset attaining it;
otherwise (returned length below 4) no match is reported. -/
theorem c3_findLongestMatch_spec (f : Nat → Nat) (inLen p : Nat) (hp : p ≤ inLen) :
    ((findLongestMatch f inLen p).1 ≤ min MAX_MATCH_LEN (inLen - p)) ∧
    (MIN_MATCH_LEN ≤ (findLongestMatch f inLen p).1 ↔
      ∃ ii, ii < p ∧ MIN_MATCH_LEN ≤ candLen f inLen p ii) ∧
    (MIN_MATCH_LEN ≤ (findLongestMatch f inLen p).1 →
      (findLongestMatch f inLen p).2 < p ∧
      candLen f inLen p (findLongestMatch f inLen p).2 = (findLongestMatch f inLen p).1 ∧
      (∀ ii, ii < p → candLen f inLen p ii ≤ (findLongestMatch f inLen p).1) ∧
      (∀ ii, ii < (findLongestMatch f inLen p).2 →
        candLen f inLen p ii < (findLongestMatch f inLen p).1)) := by
  have hcapsym : min (inLen - p) MAX_MATCH_LEN = min MAX_MATCH_LEN (inLen - p) :=
    Nat.min_comm _ _
  refine ⟨by rw [← hcapsym]; exact findLongestMatch_le_cap f inLen p, ⟨?_, ?_⟩, ?_⟩
  · intro h4
    obtain ⟨hlt, hbytes⟩ := findLongestMatch_bytes f inLen p (by
      intro hz; rw [hz] at h4; exact absurd h4 (by norm_num [MIN_MATCH_LEN]))
    refine ⟨(findLongestMatch f inLen p).2, hlt, ?_⟩
    calc MIN_MATCH_LEN ≤ (findLongestMatch f inLen p).1 := h4
      _ ≤ candLen f inLen p (findLongestMatch f inLen p).2 := by
          refine getMatchLen_max f p _ _ _ ?_ (fun j hj => (hbytes j hj).symm)
          exact findLongestMatch_le_cap f inLen p
  · rintro ⟨ii, hii, h4⟩
    exact Nat.le_trans h4 (findLongestMatch_ge f inLen p ii hii h4)
  · intro h4
    have hcap : MIN_MATCH_LEN ≤ min (inLen - p) MAX_MATCH_LEN :=
      Nat.le_trans h4 (findLongestMatch_le_cap f inLen p)
    obtain ⟨hall, _, hpos⟩ := findLongestMatch_spec f inLen p hcap
    obtain ⟨h1, h2, h3⟩ := hpos (by
      intro hz; rw [hz] at h4; exact absurd h4 (by decide))
    exact ⟨h1, h2, hall, h3⟩

theorem c3_findLongestMatch_spec_witness :
    (12 : Nat) ≤ 12 ∧
    ((findLongestMatch (fun n => n % 3) 12 6).1 ≤ min MAX_MATCH_LEN (12 - 6)) := by
  refine ⟨Nat.le_refl 12, (c3_findLongestMatch_spec (fun n => n % 3) 12 6 (by decide)).1⟩


/-! ### readBytes lemmas -/

theorem readBytes_length (f : Nat → Nat) (s n : Nat) : (readBytes f s n).length = n := by
  induction n generalizing s with
  | zero => rw [readBytes_zero]; rfl
  | succ n0 ih => rw [readBytes_succ]; simp [ih]

theorem readBytes_append (f : Nat → Nat) (s m n : Nat) :
    readBytes f s (m + n) = readBytes f s m ++ readBytes f (s + m) n := by
  induction m generalizing s with
  | zero => simp [readBytes_zero]
  | succ m0 ih =>
    have h : m0 + 1 + n = (m0 + n) + 1 := by omega
    rw [h, readBytes_succ, readBytes_succ, ih (s + 1)]
    have h2 : s + 1 + m0 = s + (m0 + 1) := by omega
    simp [h2]

theorem readBytes_snoc (f : Nat → Nat) (s n : Nat) :
    readBytes f s (n + 1) = readBytes f s n ++ [f (s + n)] := by
  rw [readBytes_append f s n 1]
  rfl

theorem readBytes_getD (f : Nat → Nat) (s n j : Nat) (hj : j < n) :
    (readBytes f s n).getD j 0 = f (s + j) := by
  induction n generalizing s j with
  | zero => omega
  | succ n0 ih =>
    rw [readBytes_succ]
    cases j with
    | zero => simp
    | succ j0 =>
      have h := ih (s + 1) j0 (by omega)
      have e : s + 1 + j0 = s + (j0 + 1) := by omega
      rw [e] at h
      simpa using h

/-! ### Mixed-byte and offset codec lemmas -/

theorem lor_shift_eq_add (a b k : Nat) (ha : a < 2 ^ k) : a ||| (b <<< k) = b * 2 ^ k + a := by
  rw [Nat.shiftLeft_eq, Nat.lor_comm, Nat.mul_comm b (2 ^ k), ← Nat.mul_add_lt_is_or ha]

theorem mixed_hi (a b : Nat) (ha : a ≤ 15) (hb : b ≤ 15) : (b ||| (a <<< 4)) >>> 4 = a := by
  rw [lor_shift_eq_add b a 4 (by omega), Nat.shiftRight_eq_div_pow]
  have e : (2 : Nat) ^ 4 = 16 := by norm_num
  rw [e]
  omega

theorem mixed_lo (a b : Nat) (ha : a ≤ 15) (hb : b ≤ 15) : (b ||| (a <<< 4)) &&& 0x0f = b := by
  rw [lor_shift_eq_add b a 4 (by omega)]
  have e : (0x0f : Nat) = 2 ^ 4 - 1 := by norm_num
  rw [e, Nat.and_pow_two_sub_one_eq_mod]
  have e2 : (2 : Nat) ^ 4 = 16 := by norm_num
  rw [e2]
  omega

theorem mixed_hi2 (a b : Nat) (ha : a ≤ 15) (hb : b ≤ 15) : ((a <<< 4) ||| b) >>> 4 = a := by
  rw [Nat.lor_comm]; exact mixed_hi a b ha hb

theorem mixed_lo2 (a b : Nat) (ha : a ≤ 15) (hb : b ≤ 15) : ((a <<< 4) ||| b) &&& 0x0f = b := by
  rw [Nat.lor_comm]; exact mixed_lo a b ha hb

theorem offset_codec (off : Nat) (h : off < 65536) :
    (off &&& 0xff) ||| (((off >>> 8) &&& 0xff) <<< 8) = off := by
  have h255 : (0xff : Nat) = 2 ^ 8 - 1 := by norm_num
  rw [h255, Nat.and_pow_two_sub_one_eq_mod, Nat.and_pow_two_sub_one_eq_mod,
      Nat.shiftRight_eq_div_pow]
  have hlt : off % 2 ^ 8 < 2 ^ 8 := Nat.mod_lt off (by norm_num)
  rw [lor_shift_eq_add _ _ 8 hlt]
  have e : (2 : Nat) ^ 8 = 256 := by norm_num
  rw [e] at *
  omega

/-! ### matchCopy lemmas -/

theorem matchCopy_length (g : Nat → Nat) (c : Nat) :
    ∀ w src, (matchCopy g c w src).length = w.length + c := by
  induction c with
  | zero => intro w src; rw [matchCopy_zero]; omega
  | succ c0 ih =>
    intro w src
    rw [matchCopy_succ, ih]
    simp
    omega

theorem matchCopy_correct (g f : Nat → Nat) :
    ∀ L i off, off < i → (∀ j, j < L → f (off + j) = f (i + j)) →
      matchCopy g L (readBytes f 0 i) off = readBytes f 0 (i + L) := by
  intro L
  induction L with
  | zero =>
    intro i off _ _
    rw [matchCopy_zero, Nat.add_zero]
  | succ L0 ih =>
    intro i off hoff hagree
    rw [matchCopy_succ]
    have hrlen : (readBytes f 0 i).length = i := readBytes_length f 0 i
    rw [if_pos (by omega : off < (readBytes f 0 i).length)]
    have hread : (readBytes f 0 i).getD off 0 = f off := by
      have h := readBytes_getD f 0 i off (by omega)
      simpa using h
    have hval : f off = f i := by
      have h := hagree 0 (by omega)
      simpa using h
    rw [hread, hval]
    have hsnoc : readBytes f 0 i ++ [f i] = readBytes f 0 (i + 1) := by
      rw [readBytes_snoc f 0 i]
      simp
    rw [hsnoc]
    have h2 := ih (i + 1) (off + 1) (by omega) (fun j hj => by
      have h := hagree (j + 1) (by omega)
      have e1 : off + (j + 1) = off + 1 + j := by omega
      have e2 : i + (j + 1) = i + 1 + j := by omega
      rw [e1, e2] at h
      exact h)
    rw [h2]
    have e : i + 1 + L0 = i + (L0 + 1) := by omega
    rw [e]


/-! ### Chunk-level decoding lemmas: one decodeLoop step consumes exactly the
bytes one encoder chunk produced. -/

theorem decode_match_chunk (dLen : Nat) (g : Nat → Nat) (fd n a off consumed : Nat)
    (lits rest w : List Nat)
    (hn : n ≤ 255) (hl : lits.length = n) (ha4 : a ≤ 251) (hoff : off < 65536)
    (hw : w.length + n ≤ MAX_SIZE)
    (hmg : matchGuard (w.length + n) off (a + MIN_MATCH_LEN) = false)
    (hin : consumed +
        ((((if a ≤ INITIAL_LEN then a else INITIAL_LEN) |||
            ((if n ≤ INITIAL_LEN then n else INITIAL_LEN) <<< 4)) ::
          ((if n ≥ INITIAL_LEN then [n - INITIAL_LEN] else []) ++
            (lits ++ ((if a ≥ INITIAL_LEN then [a - INITIAL_LEN] else []) ++
              ((off &&& 0xff) :: (((off >>> 8) &&& 0xff) :: rest))))))).length ≤ dLen) :
    ∃ c2, c2 + rest.length ≤ dLen ∧
      decodeLoop dLen g (fd + 1)
        (((if a ≤ INITIAL_LEN then a else INITIAL_LEN) |||
            ((if n ≤ INITIAL_LEN then n else INITIAL_LEN) <<< 4)) ::
          ((if n ≥ INITIAL_LEN then [n - INITIAL_LEN] else []) ++
            (lits ++ ((if a ≥ INITIAL_LEN then [a - INITIAL_LEN] else []) ++
              ((off &&& 0xff) :: (((off >>> 8) &&& 0xff) :: rest))))))
        consumed w
      = decodeLoop dLen g fd rest c2 (matchCopy g (a + MIN_MATCH_LEN) (w ++ lits) off) := by
  simp only [show INITIAL_LEN = 15 from rfl, show MIN_MATCH_LEN = 4 from rfl,
    show MAX_SIZE = 8192 from rfl, ge_iff_le] at hin hw hmg ⊢
  have hgP : ¬(matchGuard (w.length + n) off (a + 4) = true) := by simp [hmg]
  by_cases h1 : n = 0
  · -- no pending literals in this chunk
    subst h1
    have hnil : lits = [] := List.length_eq_zero.mp hl
    subst hnil
    simp only [Nat.add_zero] at hw hgP
    by_cases h3 : 15 ≤ a
    · -- long match needing an extension byte
      have hlov : (if a ≤ 15 then a else 15) = 15 := by split <;> omega
      have hin' : consumed + (1 + 1 + 2 + rest.length) ≤ dLen := by
        simp only [if_neg (show ¬(15 ≤ 0) by omega), if_pos h3, hlov,
          List.length_cons, List.length_append, List.length_nil] at hin
        omega
      refine ⟨consumed + 1 + 1 + 2, by omega, ?_⟩
      rw [decodeLoop_succ]
      simp only [show INITIAL_LEN = 15 from rfl, show MIN_MATCH_LEN = 4 from rfl,
        show EMPTY_MATCH_TOKEN = 253 from rfl, show EOD_MATCH_TOKEN = 254 from rfl,
        show MAX_SIZE = 8192 from rfl, ge_iff_le,
        if_pos (show (0 : Nat) ≤ 15 by omega), if_neg (show ¬(15 ≤ 0) by omega),
        if_pos h3, hlov, Nat.zero_shiftLeft, Nat.or_zero,
        show (15 : Nat) >>> 4 = 0 from by decide,
        show (15 : Nat) &&& 0x0f = 15 from by decide, if_true, eq_self_iff_true,
        List.nil_append, List.cons_append, List.headD_cons, List.tail_cons,
        if_neg (show ¬((0 : Nat) ≠ 0) by omega),
        if_neg (show ¬(a - 15 = 253) by omega), if_neg (show ¬(a - 15 = 254) by omega),
        show 15 + (a - 15) = a from by omega,
        offset_codec off hoff, List.append_nil, if_neg hgP]
    · -- short match, no extension byte
      have hin' : consumed + (1 + 2 + rest.length) ≤ dLen := by
        simp only [if_neg (show ¬(15 ≤ 0) by omega), if_neg h3,
          if_pos (show a ≤ 15 by omega),
          List.length_cons, List.length_append, List.length_nil] at hin
        omega
      refine ⟨consumed + 1 + 2, by omega, ?_⟩
      rw [decodeLoop_succ]
      simp only [show INITIAL_LEN = 15 from rfl, show MIN_MATCH_LEN = 4 from rfl,
        show EMPTY_MATCH_TOKEN = 253 from rfl, show EOD_MATCH_TOKEN = 254 from rfl,
        show MAX_SIZE = 8192 from rfl, ge_iff_le,
        if_pos (show (0 : Nat) ≤ 15 by omega), if_neg (show ¬(15 ≤ 0) by omega),
        if_neg h3, if_pos (show a ≤ 15 by omega), Nat.zero_shiftLeft, Nat.or_zero,
        show a >>> 4 = 0 from by
          rw [Nat.shiftRight_eq_div_pow, show (2 : Nat) ^ 4 = 16 from by norm_num]; omega,
        show a &&& 0x0f = a from by
          rw [show (0x0f : Nat) = 2 ^ 4 - 1 from by norm_num,
            Nat.and_pow_two_sub_one_eq_mod, show (2 : Nat) ^ 4 = 16 from by norm_num]
          omega,
        List.nil_append, List.cons_append, List.headD_cons, List.tail_cons,
        if_neg (show ¬((0 : Nat) ≠ 0) by omega),
        if_neg (show ¬(a = 15) by omega),
        offset_codec off hoff, List.append_nil, if_neg hgP]
  · by_cases h2 : 15 ≤ n
    · by_cases h3 : 15 ≤ a
      · -- long run ++ long match
        have hhiv : (if n ≤ 15 then n else 15) = 15 := by split <;> omega
        have hlov : (if a ≤ 15 then a else 15) = 15 := by split <;> omega
        have hin' : consumed + (1 + 1 + n + 1 + 2 + rest.length) ≤ dLen := by
          simp only [if_pos h2, if_pos h3, hhiv, hlov, hl,
            List.length_cons, List.length_append, List.length_nil] at hin
          omega
        refine ⟨consumed + 1 + 1 + n + 1 + 2, by omega, ?_⟩
        rw [decodeLoop_succ]
        have hnb : ¬(w.length + n > 8192 ∨ consumed + 1 + 1 + n > dLen) := by omega
        simp only [show INITIAL_LEN = 15 from rfl, show MIN_MATCH_LEN = 4 from rfl,
          show EMPTY_MATCH_TOKEN = 253 from rfl, show EOD_MATCH_TOKEN = 254 from rfl,
          show MAX_SIZE = 8192 from rfl, ge_iff_le,
          if_pos h2, if_pos h3, hhiv, hlov,
          mixed_hi 15 15 (by omega) (by omega), mixed_lo 15 15 (by omega) (by omega),
          List.nil_append, List.cons_append, List.headD_cons, List.tail_cons,
          if_pos (show (15 : Nat) ≠ 0 by omega), if_true, eq_self_iff_true,
          show 15 + (n - 15) = n from by omega, if_neg hnb,
          List.take_left' hl, List.drop_left' hl,
          if_neg (show ¬(a - 15 = 253) by omega), if_neg (show ¬(a - 15 = 254) by omega),
          show 15 + (a - 15) = a from by omega,
          offset_codec off hoff, List.length_append, hl, if_neg hgP]
      · -- long run ++ short match
        have hhiv : (if n ≤ 15 then n else 15) = 15 := by split <;> omega
        have hin' : consumed + (1 + 1 + n + 2 + rest.length) ≤ dLen := by
          simp only [if_pos h2, if_neg h3, if_pos (show a ≤ 15 by omega), hhiv, hl,
            List.length_cons, List.length_append, List.length_nil] at hin
          omega
        refine ⟨consumed + 1 + 1 + n + 2, by omega, ?_⟩
        rw [decodeLoop_succ]
        have hnb : ¬(w.length + n > 8192 ∨ consumed + 1 + 1 + n > dLen) := by omega
        simp only [show INITIAL_LEN = 15 from rfl, show MIN_MATCH_LEN = 4 from rfl,
          show EMPTY_MATCH_TOKEN = 253 from rfl, show EOD_MATCH_TOKEN = 254 from rfl,
          show MAX_SIZE = 8192 from rfl, ge_iff_le,
          if_pos h2, if_neg h3, if_pos (show a ≤ 15 by omega), hhiv,
          mixed_hi 15 a (by omega) (by omega), mixed_lo 15 a (by omega) (by omega),
          List.nil_append, List.cons_append, List.headD_cons, List.tail_cons,
          if_pos (show (15 : Nat) ≠ 0 by omega), if_true, eq_self_iff_true,
          show 15 + (n - 15) = n from by omega, if_neg hnb,
          List.take_left' hl, List.drop_left' hl,
          if_neg (show ¬(a = 15) by omega),
          offset_codec off hoff, List.length_append, hl, if_neg hgP]
    · by_cases h3 : 15 ≤ a
      · -- short run ++ long match
        have hlov : (if a ≤ 15 then a else 15) = 15 := by split <;> omega
        have hin' : consumed + (1 + n + 1 + 2 + rest.length) ≤ dLen := by
          simp only [if_neg h2, if_pos (show n ≤ 15 by omega), if_pos h3, hlov, hl,
            List.length_cons, List.length_append, List.length_nil] at hin
          omega
        refine ⟨consumed + 1 + n + 1 + 2, by omega, ?_⟩
        rw [decodeLoop_succ]
        have hnb : ¬(w.length + n > 8192 ∨ consumed + 1 + n > dLen) := by omega
        simp only [show INITIAL_LEN = 15 from rfl, show MIN_MATCH_LEN = 4 from rfl,
          show EMPTY_MATCH_TOKEN = 253 from rfl, show EOD_MATCH_TOKEN = 254 from rfl,
          show MAX_SIZE = 8192 from rfl, ge_iff_le,
          if_neg h2, if_pos (show n ≤ 15 by omega), if_pos h3, hlov,
          mixed_hi n 15 (by omega) (by omega), mixed_lo n 15 (by omega) (by omega),
          List.nil_append, List.cons_append, List.headD_cons, List.tail_cons,
          if_pos (show n ≠ 0 from h1), if_neg (show ¬(n = 15) by omega),
          if_true, eq_self_iff_true,
          if_neg hnb, List.take_left' hl, List.drop_left' hl,
          if_neg (show ¬(a - 15 = 253) by omega), if_neg (show ¬(a - 15 = 254) by omega),
          show 15 + (a - 15) = a from by omega,
          offset_codec off hoff, List.length_append, hl, if_neg hgP]
      · -- short run ++ short match
        have hin' : consumed + (1 + n + 2 + rest.length) ≤ dLen := by
          simp only [if_neg h2, if_pos (show n ≤ 15 by omega), if_neg h3,
            if_pos (show a ≤ 15 by omega), hl,
            List.length_cons, List.length_append, List.length_nil] at hin
          omega
        refine ⟨consumed + 1 + n + 2, by omega, ?_⟩
        rw [decodeLoop_succ]
        have hnb : ¬(w.length + n > 8192 ∨ consumed + 1 + n > dLen) := by omega
        simp only [show INITIAL_LEN = 15 from rfl, show MIN_MATCH_LEN = 4 from rfl,
          show EMPTY_MATCH_TOKEN = 253 from rfl, show EOD_MATCH_TOKEN = 254 from rfl,
          show MAX_SIZE = 8192 from rfl, ge_iff_le,
          if_neg h2, if_pos (show n ≤ 15 by omega), if_neg h3,
          if_pos (show a ≤ 15 by omega),
          mixed_hi n a (by omega) (by omega), mixed_lo n a (by omega) (by omega),
          List.nil_append, List.cons_append, List.headD_cons, List.tail_cons,
          if_pos (show n ≠ 0 from h1), if_neg (show ¬(n = 15) by omega),
          if_true, eq_self_iff_true,
          if_neg hnb, List.take_left' hl, List.drop_left' hl,
          if_neg (show ¬(a = 15) by omega),
          offset_codec off hoff, List.length_append, hl, if_neg hgP]


theorem decode_literal_chunk (dLen : Nat) (g : Nat → Nat) (fd n consumed : Nat)
    (lits rest w : List Nat)
    (hn : n ≤ 255) (hl : lits.length = n) (hw : w.length + n ≤ MAX_SIZE)
    (hin : consumed + ((if n < INITIAL_LEN then [(n <<< 4) ||| 0x0f]
        else [0xff, n - INITIAL_LEN]) ++ (lits ++ (EMPTY_MATCH_TOKEN :: rest))).length
        ≤ dLen) :
    ∃ c2, c2 + rest.length ≤ dLen ∧
      decodeLoop dLen g (fd + 1)
        ((if n < INITIAL_LEN then [(n <<< 4) ||| 0x0f]
          else [0xff, n - INITIAL_LEN]) ++ (lits ++ (EMPTY_MATCH_TOKEN :: rest)))
        consumed w
      = decodeLoop dLen g fd rest c2 (w ++ lits) := by
  simp only [show INITIAL_LEN = 15 from rfl, show MAX_SIZE = 8192 from rfl,
    show EMPTY_MATCH_TOKEN = 253 from rfl] at hin hw ⊢
  by_cases h1 : n = 0
  · subst h1
    have hnil : lits = [] := List.length_eq_zero.mp hl
    subst hnil
    have hin' : consumed + (1 + 1 + rest.length) ≤ dLen := by
      simp only [if_pos (show (0 : Nat) < 15 by omega),
        List.length_cons, List.length_append, List.length_nil] at hin
      omega
    refine ⟨consumed + 1 + 1, by omega, ?_⟩
    rw [decodeLoop_succ]
    simp only [show INITIAL_LEN = 15 from rfl, show MIN_MATCH_LEN = 4 from rfl,
      show EMPTY_MATCH_TOKEN = 253 from rfl, show EOD_MATCH_TOKEN = 254 from rfl,
      show MAX_SIZE = 8192 from rfl,
      if_pos (show (0 : Nat) < 15 by omega), Nat.zero_shiftLeft, Nat.zero_or,
      show (15 : Nat) >>> 4 = 0 from by decide,
      show (15 : Nat) &&& 0x0f = 15 from by decide, if_true, eq_self_iff_true,
      List.nil_append, List.cons_append, List.headD_cons, List.tail_cons,
      if_neg (show ¬((0 : Nat) ≠ 0) by omega), List.append_nil]
  · by_cases h2 : 15 ≤ n
    · have hin' : consumed + (1 + 1 + n + 1 + rest.length) ≤ dLen := by
        simp only [if_neg (show ¬(n < 15) by omega), hl,
          List.length_cons, List.length_append, List.length_nil] at hin
        omega
      refine ⟨consumed + 1 + 1 + n + 1, by omega, ?_⟩
      rw [decodeLoop_succ]
      have hnb : ¬(w.length + n > 8192 ∨ consumed + 1 + 1 + n > dLen) := by omega
      simp only [show INITIAL_LEN = 15 from rfl, show MIN_MATCH_LEN = 4 from rfl,
        show EMPTY_MATCH_TOKEN = 253 from rfl, show EOD_MATCH_TOKEN = 254 from rfl,
        show MAX_SIZE = 8192 from rfl,
        if_neg (show ¬(n < 15) by omega),
        show (0xff : Nat) >>> 4 = 15 from by decide,
        show (0xff : Nat) &&& 0x0f = 15 from by decide, if_true, eq_self_iff_true,
        List.nil_append, List.cons_append, List.headD_cons, List.tail_cons,
        if_pos (show (15 : Nat) ≠ 0 by omega),
        show 15 + (n - 15) = n from by omega, if_neg hnb,
        List.take_left' hl, List.drop_left' hl]
    · have hin' : consumed + (1 + n + 1 + rest.length) ≤ dLen := by
        simp only [if_pos (show n < 15 by omega), hl,
          List.length_cons, List.length_append, List.length_nil] at hin
        omega
      refine ⟨consumed + 1 + n + 1, by omega, ?_⟩
      rw [decodeLoop_succ]
      have hnb : ¬(w.length + n > 8192 ∨ consumed + 1 + n > dLen) := by omega
      simp only [show INITIAL_LEN = 15 from rfl, show MIN_MATCH_LEN = 4 from rfl,
        show EMPTY_MATCH_TOKEN = 253 from rfl, show EOD_MATCH_TOKEN = 254 from rfl,
        show MAX_SIZE = 8192 from rfl,
        if_pos (show n < 15 by omega),
        mixed_hi2 n 15 (by omega) (by omega), mixed_lo2 n 15 (by omega) (by omega),
        List.nil_append, List.cons_append, List.headD_cons, List.tail_cons,
        if_pos (show n ≠ 0 from h1), if_neg (show ¬(n = 15) by omega),
        if_true, eq_self_iff_true, if_neg hnb,
        List.take_left' hl, List.drop_left' hl]

theorem decode_eod_chunk (dLen : Nat) (g : Nat → Nat) (fd n consumed : Nat)
    (lits w : List Nat)
    (hn : n ≤ 255) (hl : lits.length = n) (hw : w.length + n ≤ MAX_SIZE)
    (hin : consumed + ((if n < INITIAL_LEN then [(n <<< 4) ||| 0x0f]
        else [0xff, n - INITIAL_LEN]) ++ (lits ++ [EOD_MATCH_TOKEN])).length ≤ dLen) :
    decodeLoop dLen g (fd + 1)
      ((if n < INITIAL_LEN then [(n <<< 4) ||| 0x0f]
        else [0xff, n - INITIAL_LEN]) ++ (lits ++ [EOD_MATCH_TOKEN])) consumed w
    = some (w ++ lits) := by
  simp only [show INITIAL_LEN = 15 from rfl, show MAX_SIZE = 8192 from rfl,
    show EOD_MATCH_TOKEN = 254 from rfl] at hin hw ⊢
  by_cases h1 : n = 0
  · subst h1
    have hnil : lits = [] := List.length_eq_zero.mp hl
    subst hnil
    rw [decodeLoop_succ]
    simp only [show INITIAL_LEN = 15 from rfl, show MIN_MATCH_LEN = 4 from rfl,
      show EMPTY_MATCH_TOKEN = 253 from rfl, show EOD_MATCH_TOKEN = 254 from rfl,
      show MAX_SIZE = 8192 from rfl,
      if_pos (show (0 : Nat) < 15 by omega), Nat.zero_shiftLeft, Nat.zero_or,
      show (15 : Nat) >>> 4 = 0 from by decide,
      show (15 : Nat) &&& 0x0f = 15 from by decide, if_true, eq_self_iff_true,
      List.nil_append, List.cons_append, List.headD_cons, List.tail_cons,
      if_neg (show ¬((0 : Nat) ≠ 0) by omega),
      if_neg (show ¬((254 : Nat) = 253) by omega), List.append_nil]
  · by_cases h2 : 15 ≤ n
    · have hin' : consumed + (1 + 1 + n + 1) ≤ dLen := by
        simp only [if_neg (show ¬(n < 15) by omega), hl,
          List.length_cons, List.length_append, List.length_nil] at hin
        omega
      rw [decodeLoop_succ]
      have hnb : ¬(w.length + n > 8192 ∨ consumed + 1 + 1 + n > dLen) := by omega
      simp only [show INITIAL_LEN = 15 from rfl, show MIN_MATCH_LEN = 4 from rfl,
        show EMPTY_MATCH_TOKEN = 253 from rfl, show EOD_MATCH_TOKEN = 254 from rfl,
        show MAX_SIZE = 8192 from rfl,
        if_neg (show ¬(n < 15) by omega),
        show (0xff : Nat) >>> 4 = 15 from by decide,
        show (0xff : Nat) &&& 0x0f = 15 from by decide, if_true, eq_self_iff_true,
        List.nil_append, List.cons_append, List.headD_cons, List.tail_cons,
        if_pos (show (15 : Nat) ≠ 0 by omega),
        show 15 + (n - 15) = n from by omega, if_neg hnb,
        List.take_left' hl, List.drop_left' hl,
        if_neg (show ¬((254 : Nat) = 253) by omega)]
    · have hin' : consumed + (1 + n + 1) ≤ dLen := by
        simp only [if_pos (show n < 15 by omega), hl,
          List.length_cons, List.length_append, List.length_nil] at hin
        omega
      rw [decodeLoop_succ]
      have hnb : ¬(w.length + n > 8192 ∨ consumed + 1 + n > dLen) := by omega
      simp only [show INITIAL_LEN = 15 from rfl, show MIN_MATCH_LEN = 4 from rfl,
        show EMPTY_MATCH_TOKEN = 253 from rfl, show EOD_MATCH_TOKEN = 254 from rfl,
        show MAX_SIZE = 8192 from rfl,
        if_pos (show n < 15 by omega),
        mixed_hi2 n 15 (by omega) (by omega), mixed_lo2 n 15 (by omega) (by omega),
        List.nil_append, List.cons_append, List.headD_cons, List.tail_cons,
        if_pos (show n ≠ 0 from h1), if_neg (show ¬(n = 15) by omega),
        if_true, eq_self_iff_true, if_neg hnb,
        List.take_left' hl, List.drop_left' hl,
        if_neg (show ¬((254 : Nat) = 253) by omega)]


/-! ### The greedy compressor round-trips through the decoder -/

theorem greedyLoop_decodes (f g : Nat → Nat) (inLen dLen : Nat) (hle : inLen ≤ MAX_SIZE) :
    ∀ fuel fd inPos numLits litSrc consumed,
      inLen < inPos + fuel → fuel ≤ fd → inPos ≤ inLen →
      numLits ≤ MAX_LITERAL_LEN → numLits ≤ inPos →
      (numLits = 0 ∨ litSrc = inPos - numLits) →
      consumed + (greedyLoop f inLen fuel inPos numLits litSrc).length ≤ dLen →
      decodeLoop dLen g fd (greedyLoop f inLen fuel inPos numLits litSrc) consumed
          (readBytes f 0 (inPos - numLits))
        = some (readBytes f 0 inLen) := by
  rw [show MAX_SIZE = 8192 from rfl] at hle
  intro fuel
  induction fuel with
  | zero =>
    intro fd inPos numLits litSrc consumed hfuel hfd hpos h255 hnp hsrc hbud
    omega
  | succ fuel0 ih =>
    intro fd inPos numLits litSrc consumed hfuel hfd hpos h255 hnp hsrc hbud
    rw [show MAX_LITERAL_LEN = 255 from rfl] at h255
    have hfd1 : fd = (fd - 1) + 1 := by omega
    by_cases hin : inPos < inLen
    · by_cases hm : (findLongestMatch f inLen inPos).1 < MIN_MATCH_LEN
      · by_cases hfl : numLits = MAX_LITERAL_LEN
        · -- flush a maxed-out literal run as its own chunk
          subst hfl
          simp only [greedyLoop_succ, if_pos hin, if_pos hm, if_pos rfl,
            if_true, eq_self_iff_true] at hbud ⊢
          have hsrc' : litSrc = inPos - MAX_LITERAL_LEN := by
            rcases hsrc with h0 | h
            · rw [show MAX_LITERAL_LEN = 255 from rfl] at h0; omega
            · exact h
          have hnp' : (255 : Nat) ≤ inPos := by
            rw [show MAX_LITERAL_LEN = 255 from rfl] at hnp; exact hnp
          have hl : (readBytes f litSrc MAX_LITERAL_LEN).length = MAX_LITERAL_LEN :=
            readBytes_length f litSrc MAX_LITERAL_LEN
          have hwb : (readBytes f 0 (inPos - MAX_LITERAL_LEN)).length + MAX_LITERAL_LEN
              ≤ MAX_SIZE := by
            rw [readBytes_length, show MAX_LITERAL_LEN = 255 from rfl,
              show MAX_SIZE = 8192 from rfl]
            omega
          have hbud' : consumed + ((if MAX_LITERAL_LEN < INITIAL_LEN
              then [(MAX_LITERAL_LEN <<< 4) ||| 0x0f]
              else [0xff, MAX_LITERAL_LEN - INITIAL_LEN]) ++
              (readBytes f litSrc MAX_LITERAL_LEN ++ (EMPTY_MATCH_TOKEN ::
                greedyLoop f inLen fuel0 (inPos + 1) 1 inPos))).length ≤ dLen := by
            simp only [if_neg (show ¬(MAX_LITERAL_LEN < INITIAL_LEN) by decide),
              List.cons_append, List.nil_append]
            exact hbud
          obtain ⟨c2, hc2, heq⟩ := decode_literal_chunk dLen g (fd - 1) MAX_LITERAL_LEN
            consumed (readBytes f litSrc MAX_LITERAL_LEN)
            (greedyLoop f inLen fuel0 (inPos + 1) 1 inPos)
            (readBytes f 0 (inPos - MAX_LITERAL_LEN)) (by decide) hl hwb hbud'
          simp only [if_neg (show ¬(MAX_LITERAL_LEN < INITIAL_LEN) by decide),
            List.cons_append, List.nil_append] at heq
          rw [hfd1, heq]
          have hjoin : readBytes f 0 (inPos - MAX_LITERAL_LEN) ++
              readBytes f litSrc MAX_LITERAL_LEN = readBytes f 0 inPos := by
            have h2 := readBytes_append f 0 (inPos - MAX_LITERAL_LEN) MAX_LITERAL_LEN
            rw [Nat.zero_add] at h2
            rw [show inPos - MAX_LITERAL_LEN + MAX_LITERAL_LEN = inPos from by
              rw [show MAX_LITERAL_LEN = 255 from rfl]; omega] at h2
            rw [hsrc']
            exact h2.symm
          rw [hjoin]
          have H := ih (fd - 1) (inPos + 1) 1 inPos c2 (by omega) (by omega) (by omega)
            (by decide) (by omega) (Or.inr (by omega)) hc2
          rw [show inPos + 1 - 1 = inPos from by omega] at H
          exact H
        · -- keep accumulating the literal run; nothing is emitted
          simp only [greedyLoop_succ, if_pos hin, if_pos hm, if_neg hfl] at hbud ⊢
          have hfl' : numLits ≠ 255 := by
            rw [show MAX_LITERAL_LEN = 255 from rfl] at hfl; exact hfl
          have hsrc2 : numLits + 1 = 0 ∨
              (if numLits = 0 then inPos else litSrc) = inPos + 1 - (numLits + 1) := by
            right
            by_cases hz : numLits = 0
            · rw [if_pos hz, hz]; omega
            · rw [if_neg hz]
              rcases hsrc with h0 | h
              · exact absurd h0 hz
              · rw [h]; omega
          have H := ih fd (inPos + 1) (numLits + 1)
            (if numLits = 0 then inPos else litSrc) consumed (by omega) (by omega)
            (by omega) (by rw [show MAX_LITERAL_LEN = 255 from rfl]; omega) (by omega)
            hsrc2 hbud
          rw [show inPos + 1 - (numLits + 1) = inPos - numLits from by omega] at H
          exact H
      · -- emit the pending run and the found match in one chunk
        simp only [greedyLoop_succ, if_pos hin, if_neg hm] at hbud ⊢
        have hm4 : MIN_MATCH_LEN ≤ (findLongestMatch f inLen inPos).1 := Nat.le_of_not_lt hm
        have hm4' : 4 ≤ (findLongestMatch f inLen inPos).1 := by
          rw [show MIN_MATCH_LEN = 4 from rfl] at hm4; exact hm4
        have hne : (findLongestMatch f inLen inPos).1 ≠ 0 := by omega
        have hb := findLongestMatch_bytes f inLen inPos hne
        have hcap := findLongestMatch_le_cap f inLen inPos
        have hcap' : (findLongestMatch f inLen inPos).1 ≤ inLen - inPos ∧
            (findLongestMatch f inLen inPos).1 ≤ 255 := by
          rw [show MAX_MATCH_LEN = 255 from rfl] at hcap; omega
        have hl : (readBytes f litSrc numLits).length = numLits :=
          readBytes_length f litSrc numLits
        have hwl : (readBytes f 0 (inPos - numLits)).length = inPos - numLits :=
          readBytes_length f 0 (inPos - numLits)
        have hmg : matchGuard ((readBytes f 0 (inPos - numLits)).length + numLits)
            (findLongestMatch f inLen inPos).2
            ((findLongestMatch f inLen inPos).1 - MIN_MATCH_LEN + MIN_MATCH_LEN) = false := by
          rw [hwl, Nat.sub_add_cancel hm4]
          simp only [matchGuard, show MAX_SIZE = 8192 from rfl, Bool.or_eq_false_iff,
            decide_eq_false_iff_not]
          constructor <;> (intro hgt) <;> omega
        obtain ⟨c2, hc2, heq⟩ := decode_match_chunk dLen g (fd - 1) numLits
          ((findLongestMatch f inLen inPos).1 - MIN_MATCH_LEN)
          ((findLongestMatch f inLen inPos).2) consumed (readBytes f litSrc numLits)
          (greedyLoop f inLen fuel0 (inPos + (findLongestMatch f inLen inPos).1) 0 0)
          (readBytes f 0 (inPos - numLits)) (by omega) hl
          (by rw [show MIN_MATCH_LEN = 4 from rfl]; omega)
          (by omega)
          (by rw [hwl, show MAX_SIZE = 8192 from rfl]; omega) hmg hbud
        rw [hfd1, heq, Nat.sub_add_cancel hm4]
        have hjoin : readBytes f 0 (inPos - numLits) ++ readBytes f litSrc numLits =
            readBytes f 0 inPos := by
          rcases hsrc with h0 | h
          · rw [h0, readBytes_zero, List.append_nil, Nat.sub_zero]
          · have h2 := readBytes_append f 0 (inPos - numLits) numLits
            rw [Nat.zero_add] at h2
            rw [show inPos - numLits + numLits = inPos from by omega] at h2
            rw [h]
            exact h2.symm
        rw [hjoin]
        rw [matchCopy_correct g f ((findLongestMatch f inLen inPos).1) inPos
          ((findLongestMatch f inLen inPos).2) hb.1 hb.2]
        have H := ih (fd - 1) (inPos + (findLongestMatch f inLen inPos).1) 0 0 c2
          (by omega) (by omega) (by omega) (Nat.zero_le _) (Nat.zero_le _)
          (Or.inl rfl) hc2
        rw [Nat.sub_zero] at H
        exact H
    · -- inPos = inLen: the end-of-data chunk closes the stream
      simp only [greedyLoop_succ, if_neg hin] at hbud ⊢
      have hwb : (readBytes f 0 (inPos - numLits)).length + numLits ≤ MAX_SIZE := by
        rw [readBytes_length, show MAX_SIZE = 8192 from rfl]
        omega
      have heq := decode_eod_chunk dLen g (fd - 1) numLits consumed
        (readBytes f litSrc numLits) (readBytes f 0 (inPos - numLits)) (by omega)
        (readBytes_length f litSrc numLits) hwb hbud
      rw [hfd1, heq]
      have hjoin : readBytes f 0 (inPos - numLits) ++ readBytes f litSrc numLits =
          readBytes f 0 inPos := by
        rcases hsrc with h0 | h
        · rw [h0, readBytes_zero, List.append_nil, Nat.sub_zero]
        · have h2 := readBytes_append f 0 (inPos - numLits) numLits
          rw [Nat.zero_add] at h2
          rw [show inPos - numLits + numLits = inPos from by omega] at h2
          rw [h]
          exact h2.symm
      rw [hjoin, show inPos = inLen from by omega]


theorem greedy_roundtrip (f g : Nat → Nat) (inLen : Nat) (hle : inLen ≤ MAX_SIZE) :
    uncompressBuffer (compressBufferGreedily f inLen)
      (compressBufferGreedily f inLen).length g = some (readBytes f 0 inLen) := by
  have H := greedyLoop_decodes f g inLen (compressBufferGreedily f inLen).length hle
    (inLen + 1) ((compressBufferGreedily f inLen).length + MAX_SIZE) 0 0 0 1
    (by omega)
    (by simp only [compressBufferGreedily, List.length_cons]
        rw [show MAX_SIZE = 8192 from rfl] at hle ⊢; omega)
    (Nat.zero_le _) (Nat.zero_le _) (Nat.zero_le _) (Or.inl rfl)
    (by simp only [compressBufferGreedily, List.length_cons]; omega)
  rw [show (0 : Nat) - 0 = 0 from rfl, readBytes_zero] at H
  simp only [compressBufferGreedily, List.length_cons] at H
  simp only [uncompressBuffer, compressBufferGreedily, List.headD_cons, List.tail_cons,
    List.length_cons, if_pos rfl, if_true, eq_self_iff_true]
  exact H


/-! ### Structure of the optimal-parse node list -/

theorem optStep_literalLength (f : Nat → Nat) (inLen i : Nat) (rest : List OptNode) :
    (optStep f inLen i rest).literalLength =
      if i = inLen - 1 then 1
      else if (nthD rest 0).matchLength ≠ 0 then 1
      else if (nthD rest 0).literalLength = MAX_LITERAL_LEN then 1
      else (nthD rest 0).literalLength + 1 := by
  by_cases h1 : i = inLen - 1
  · simp only [optStep, if_pos h1]
    split <;> first | rfl | (split <;> first | rfl | (split <;> first | rfl | (split <;> first | rfl | (split <;> first | rfl | (split <;> rfl)))))
  · by_cases h2 : (nthD rest 0).matchLength ≠ 0
    · simp only [optStep, if_neg h1, if_pos h2]
      split <;> first | rfl | (split <;> first | rfl | (split <;> first | rfl | (split <;> first | rfl | (split <;> first | rfl | (split <;> rfl)))))
    · by_cases h3 : (nthD rest 0).literalLength = MAX_LITERAL_LEN
      · simp only [optStep, if_neg h1, if_neg h2, if_pos h3]
        split <;> first | rfl | (split <;> first | rfl | (split <;> first | rfl | (split <;> first | rfl | (split <;> first | rfl | (split <;> rfl)))))
      · simp only [optStep, if_neg h1, if_neg h2, if_neg h3]
        split <;> first | rfl | (split <;> first | rfl | (split <;> first | rfl | (split <;> first | rfl | (split <;> first | rfl | (split <;> rfl)))))

theorem optStep_match_spec (f : Nat → Nat) (inLen i : Nat) (rest : List OptNode)
    (hne : (optStep f inLen i rest).matchLength ≠ 0) :
    (optStep f inLen i rest).matchLength = (findLongestMatch f inLen i).1 ∧
    (optStep f inLen i rest).matchOffset = (findLongestMatch f inLen i).2 ∧
    MIN_MATCH_LEN ≤ (findLongestMatch f inLen i).1 := by
  by_cases hnm : (findLongestMatch f inLen i).1 < MIN_MATCH_LEN
  · exfalso
    apply hne
    simp only [optStep, if_pos hnm]
    split <;> first | rfl | (split <;> first | rfl | (split <;> first | rfl | (split <;> first | rfl | (split <;> first | rfl | (split <;> rfl)))))
  · have hle4 := Nat.le_of_not_lt hnm
    revert hne
    simp only [optStep, if_neg hnm]
    split <;> first | (intro h; exact ⟨rfl, rfl, hle4⟩) | (intro h; exact absurd rfl h) | (split <;> first | (intro h; exact ⟨rfl, rfl, hle4⟩) | (intro h; exact absurd rfl h) | (split <;> first | (intro h; exact ⟨rfl, rfl, hle4⟩) | (intro h; exact absurd rfl h) | (split <;> first | (intro h; exact ⟨rfl, rfl, hle4⟩) | (intro h; exact absurd rfl h) | (split <;> first | (intro h; exact ⟨rfl, rfl, hle4⟩) | (intro h; exact absurd rfl h) | (split <;> first | (intro h; exact ⟨rfl, rfl, hle4⟩) | (intro h; exact absurd rfl h))))))

theorem optPass1_zero (f : Nat → Nat) (inLen : Nat) : optPass1 f inLen 0 = [] := rfl

theorem optPass1_succ (f : Nat → Nat) (inLen k : Nat) :
    optPass1 f inLen (k + 1) =
      optStep f inLen (inLen - (k + 1)) (optPass1 f inLen k) :: optPass1 f inLen k := rfl

theorem optPass1_length (f : Nat → Nat) (inLen : Nat) :
    ∀ k, (optPass1 f inLen k).length = k := by
  intro k
  induction k with
  | zero => rfl
  | succ k0 ih => rw [optPass1_succ]; simp [ih]

theorem optPass1_drop (f : Nat → Nat) (inLen : Nat) :
    ∀ j k, (optPass1 f inLen k).drop j = optPass1 f inLen (k - j) := by
  intro j
  induction j with
  | zero => intro k; simp
  | succ j0 ih =>
    intro k
    cases k with
    | zero => simp [optPass1_zero]
    | succ k0 =>
      rw [optPass1_succ]
      have : (optStep f inLen (inLen - (k0 + 1)) (optPass1 f inLen k0) ::
          optPass1 f inLen k0).drop (j0 + 1) = (optPass1 f inLen k0).drop j0 := rfl
      rw [this, ih k0]
      congr 1
      omega

/-- Well-formedness of the literal-run length recorded in each node:
it is in [1, MAX_LITERAL_LEN] and never runs past the end of the buffer. -/
theorem optStep_lit_wf (f : Nat → Nat) (inLen : Nat) :
    ∀ c, 1 ≤ c → c ≤ inLen →
      1 ≤ (optStep f inLen (inLen - c) (optPass1 f inLen (c - 1))).literalLength ∧
      (optStep f inLen (inLen - c) (optPass1 f inLen (c - 1))).literalLength ≤
        MAX_LITERAL_LEN ∧
      (inLen - c) + (optStep f inLen (inLen - c) (optPass1 f inLen (c - 1))).literalLength
        ≤ inLen := by
  intro c
  induction c with
  | zero => intro h; omega
  | succ c0 ih =>
    intro _ hc
    rw [optStep_literalLength]
    simp only [Nat.add_sub_cancel]
    by_cases h1 : inLen - (c0 + 1) = inLen - 1
    · rw [if_pos h1, show MAX_LITERAL_LEN = 255 from rfl]
      omega
    · rw [if_neg h1]
      have hc0 : 1 ≤ c0 := by omega
      have hd : (c0 - 1) + 1 = c0 := by omega
      have hhead : nthD (optPass1 f inLen c0) 0 =
          optStep f inLen (inLen - c0) (optPass1 f inLen (c0 - 1)) := by
        rw [← hd, optPass1_succ, nthD_cons_zero, hd]
      obtain ⟨ihl, ihu, ihe⟩ := ih hc0 (by omega)
      by_cases h2 : (nthD (optPass1 f inLen c0) 0).matchLength ≠ 0
      · rw [if_pos h2, show MAX_LITERAL_LEN = 255 from rfl]
        omega
      · rw [if_neg h2]
        by_cases h3 : (nthD (optPass1 f inLen c0) 0).literalLength = MAX_LITERAL_LEN
        · rw [if_pos h3, show MAX_LITERAL_LEN = 255 from rfl]
          omega
        · rw [if_neg h3, hhead]
          rw [hhead] at h3
          rw [show MAX_LITERAL_LEN = 255 from rfl] at ihu h3 ⊢
          omega

/-- The backward accumulator pass computes exactly optPass1. -/
theorem optBuild_eq_optPass1 (f : Nat → Nat) (inLen : Nat) :
    ∀ i, i ≤ inLen →
      optBuild f inLen i (optPass1 f inLen (inLen - i)) = optPass1 f inLen inLen := by
  intro i
  induction i with
  | zero => intro _; rw [optBuild_zero, Nat.sub_zero]
  | succ i0 ih =>
    intro hi
    rw [optBuild_succ]
    have hstep : optStep f inLen i0 (optPass1 f inLen (inLen - (i0 + 1))) ::
        optPass1 f inLen (inLen - (i0 + 1)) = optPass1 f inLen (inLen - i0) := by
      have he : inLen - i0 = (inLen - (i0 + 1)) + 1 := by omega
      rw [he, optPass1_succ]
      have he2 : inLen - ((inLen - (i0 + 1)) + 1) = i0 := by omega
      rw [he2]
    rw [hstep]
    exact ih (by omega)

theorem optBuild_full (f : Nat → Nat) (inLen : Nat) :
    optBuild f inLen inLen [] = optPass1 f inLen inLen := by
  have h := optBuild_eq_optPass1 f inLen inLen (Nat.le_refl inLen)
  rw [Nat.sub_self] at h
  exact h


theorem optPass1_headD (f : Nat → Nat) (inLen k : Nat) :
    (optPass1 f inLen (k + 1)).headD zeroNode =
      optStep f inLen (inLen - (k + 1)) (optPass1 f inLen k) := rfl

/-! ### The optimal compressor round-trips through the decoder -/

theorem optEmit_decodes (f g : Nat → Nat) (inLen dLen : Nat) (hle : inLen ≤ MAX_SIZE) :
    ∀ fuel fd i numLits litSrc consumed,
      inLen < i + fuel → fuel ≤ fd → i ≤ inLen →
      numLits ≤ MAX_LITERAL_LEN → numLits ≤ i →
      (numLits = 0 ∨ litSrc = i - numLits) →
      consumed + (optEmit f inLen fuel (optPass1 f inLen (inLen - i))
        i numLits litSrc).length ≤ dLen →
      decodeLoop dLen g fd
          (optEmit f inLen fuel (optPass1 f inLen (inLen - i)) i numLits litSrc)
          consumed (readBytes f 0 (i - numLits))
        = some (readBytes f 0 inLen) := by
  rw [show MAX_SIZE = 8192 from rfl] at hle
  intro fuel
  induction fuel with
  | zero =>
    intro fd i numLits litSrc consumed hfuel hfd hpos h255 hnp hsrc hbud
    omega
  | succ fuel0 ih =>
    intro fd i numLits litSrc consumed hfuel hfd hpos h255 hnp hsrc hbud
    rw [show MAX_LITERAL_LEN = 255 from rfl] at h255
    have hfd1 : fd = (fd - 1) + 1 := by omega
    by_cases hi : i < inLen
    · have hk : inLen - i = (inLen - (i + 1)) + 1 := by omega
      simp only [optEmit_succ, if_pos hi] at hbud ⊢
      rw [hk] at hbud ⊢
      simp only [optPass1_headD] at hbud ⊢
      rw [show inLen - ((inLen - (i + 1)) + 1) = i from by omega] at hbud ⊢
      obtain ⟨hl1, hl2, hl3⟩ := optStep_lit_wf f inLen (inLen - i) (by omega) (by omega)
      rw [show inLen - (inLen - i) = i from by omega,
        show inLen - i - 1 = inLen - (i + 1) from by omega] at hl1 hl2 hl3
      rw [show MAX_LITERAL_LEN = 255 from rfl] at hl2
      by_cases hml : (optStep f inLen i (optPass1 f inLen (inLen - (i + 1)))).matchLength = 0
      · -- literal node
        simp only [if_pos hml, optPass1_drop] at hbud ⊢
        rw [show (inLen - (i + 1)) + 1 -
            (optStep f inLen i (optPass1 f inLen (inLen - (i + 1)))).literalLength =
            inLen - (i +
              (optStep f inLen i (optPass1 f inLen (inLen - (i + 1)))).literalLength)
          from by omega] at hbud ⊢
        by_cases hnz : numLits = 0
        · subst hnz
          simp only [if_neg (show ¬((0 : Nat) ≠ 0) by omega), List.nil_append]
            at hbud ⊢
          have H := ih fd
            (i + (optStep f inLen i (optPass1 f inLen (inLen - (i + 1)))).literalLength)
            ((optStep f inLen i (optPass1 f inLen (inLen - (i + 1)))).literalLength)
            i consumed (by omega) (by omega) (by omega)
            (by rw [show MAX_LITERAL_LEN = 255 from rfl]; omega) (by omega)
            (Or.inr (by omega)) hbud
          rw [Nat.add_sub_cancel] at H
          rw [Nat.sub_zero]
          exact H
        · simp only [if_pos (show numLits ≠ 0 from hnz), List.append_assoc,
            List.singleton_append] at hbud ⊢
          have hwb : (readBytes f 0 (i - numLits)).length + numLits ≤ MAX_SIZE := by
            rw [readBytes_length, show MAX_SIZE = 8192 from rfl]
            omega
          obtain ⟨c2, hc2, heq⟩ := decode_literal_chunk dLen g (fd - 1) numLits
            consumed (readBytes f litSrc numLits)
            (optEmit f inLen fuel0
              (optPass1 f inLen (inLen - (i +
                (optStep f inLen i (optPass1 f inLen (inLen - (i + 1)))).literalLength)))
              (i + (optStep f inLen i (optPass1 f inLen (inLen - (i + 1)))).literalLength)
              ((optStep f inLen i (optPass1 f inLen (inLen - (i + 1)))).literalLength) i)
            (readBytes f 0 (i - numLits)) (by omega)
            (readBytes_length f litSrc numLits) hwb hbud
          rw [hfd1, heq]
          have hjoin : readBytes f 0 (i - numLits) ++ readBytes f litSrc numLits =
              readBytes f 0 i := by
            rcases hsrc with h0 | h
            · exact absurd h0 hnz
            · have h2 := readBytes_append f 0 (i - numLits) numLits
              rw [Nat.zero_add] at h2
              rw [show i - numLits + numLits = i from by omega] at h2
              rw [h]
              exact h2.symm
          rw [hjoin]
          have H := ih (fd - 1)
            (i + (optStep f inLen i (optPass1 f inLen (inLen - (i + 1)))).literalLength)
            ((optStep f inLen i (optPass1 f inLen (inLen - (i + 1)))).literalLength)
            i c2 (by omega) (by omega) (by omega)
            (by rw [show MAX_LITERAL_LEN = 255 from rfl]; omega) (by omega)
            (Or.inr (by omega)) hc2
          rw [Nat.add_sub_cancel] at H
          exact H
      · -- match node
        obtain ⟨hm1, hm2, hm4⟩ := optStep_match_spec f inLen i
          (optPass1 f inLen (inLen - (i + 1))) hml
        have hm4' : 4 ≤ (findLongestMatch f inLen i).1 := by
          rw [show MIN_MATCH_LEN = 4 from rfl] at hm4; exact hm4
        have hcap := findLongestMatch_le_cap f inLen i
        have hcap' : (findLongestMatch f inLen i).1 ≤ inLen - i ∧
            (findLongestMatch f inLen i).1 ≤ 255 := by
          rw [show MAX_MATCH_LEN = 255 from rfl] at hcap; omega
        have hb := findLongestMatch_bytes f inLen i (by omega)
        simp only [if_neg hml, hm1, hm2,
          if_neg (show ¬((findLongestMatch f inLen i).1 = 0) by omega),
          optPass1_drop] at hbud ⊢
        rw [show (inLen - (i + 1)) + 1 - (findLongestMatch f inLen i).1 =
            inLen - (i + (findLongestMatch f inLen i).1) from by omega] at hbud ⊢
        have hwl : (readBytes f 0 (i - numLits)).length = i - numLits :=
          readBytes_length f 0 (i - numLits)
        have hmg : matchGuard ((readBytes f 0 (i - numLits)).length + numLits)
            (findLongestMatch f inLen i).2
            ((findLongestMatch f inLen i).1 - MIN_MATCH_LEN + MIN_MATCH_LEN) = false := by
          rw [hwl, Nat.sub_add_cancel hm4]
          simp only [matchGuard, show MAX_SIZE = 8192 from rfl, Bool.or_eq_false_iff,
            decide_eq_false_iff_not]
          constructor <;> (intro hgt) <;> omega
        obtain ⟨c2, hc2, heq⟩ := decode_match_chunk dLen g (fd - 1) numLits
          ((findLongestMatch f inLen i).1 - MIN_MATCH_LEN)
          ((findLongestMatch f inLen i).2) consumed (readBytes f litSrc numLits)
          (optEmit f inLen fuel0
            (optPass1 f inLen (inLen - (i + (findLongestMatch f inLen i).1)))
            (i + (findLongestMatch f inLen i).1) 0 0)
          (readBytes f 0 (i - numLits)) (by omega)
          (readBytes_length f litSrc numLits)
          (by rw [show MIN_MATCH_LEN = 4 from rfl]; omega)
          (by omega)
          (by rw [hwl, show MAX_SIZE = 8192 from rfl]; omega) hmg hbud
        rw [hfd1, heq, Nat.sub_add_cancel hm4]
        have hjoin : readBytes f 0 (i - numLits) ++ readBytes f litSrc numLits =
            readBytes f 0 i := by
          rcases hsrc with h0 | h
          · rw [h0, readBytes_zero, List.append_nil, Nat.sub_zero]
          · have h2 := readBytes_append f 0 (i - numLits) numLits
            rw [Nat.zero_add] at h2
            rw [show i - numLits + numLits = i from by omega] at h2
            rw [h]
            exact h2.symm
        rw [hjoin]
        rw [matchCopy_correct g f ((findLongestMatch f inLen i).1) i
          ((findLongestMatch f inLen i).2) hb.1 hb.2]
        have H := ih (fd - 1) (i + (findLongestMatch f inLen i).1) 0 0 c2
          (by omega) (by omega) (by omega) (Nat.zero_le _) (Nat.zero_le _)
          (Or.inl rfl) hc2
        rw [Nat.sub_zero] at H
        exact H
    · -- i = inLen: the end-of-data chunk closes the stream
      simp only [optEmit_succ, if_neg hi] at hbud ⊢
      have hwb : (readBytes f 0 (i - numLits)).length + numLits ≤ MAX_SIZE := by
        rw [readBytes_length, show MAX_SIZE = 8192 from rfl]
        omega
      have heq := decode_eod_chunk dLen g (fd - 1) numLits consumed
        (readBytes f litSrc numLits) (readBytes f 0 (i - numLits)) (by omega)
        (readBytes_length f litSrc numLits) hwb hbud
      rw [hfd1, heq]
      have hjoin : readBytes f 0 (i - numLits) ++ readBytes f litSrc numLits =
          readBytes f 0 i := by
        rcases hsrc with h0 | h
        · rw [h0, readBytes_zero, List.append_nil, Nat.sub_zero]
        · have h2 := readBytes_append f 0 (i - numLits) numLits
          rw [Nat.zero_add] at h2
          rw [show i - numLits + numLits = i from by omega] at h2
          rw [h]
          exact h2.symm
      rw [hjoin, show i = inLen from by omega]


theorem optimal_roundtrip (f g : Nat → Nat) (inLen : Nat) (hle : inLen ≤ MAX_SIZE) :
    uncompressBuffer (compressBufferOptimally f inLen)
      (compressBufferOptimally f inLen).length g = some (readBytes f 0 inLen) := by
  have H := optEmit_decodes f g inLen (compressBufferOptimally f inLen).length hle
    (inLen + 1) ((compressBufferOptimally f inLen).length + MAX_SIZE) 0 0 0 1
    (by omega)
    (by simp only [compressBufferOptimally, List.length_cons]
        rw [show MAX_SIZE = 8192 from rfl] at hle ⊢; omega)
    (Nat.zero_le _) (Nat.zero_le _) (Nat.zero_le _) (Or.inl rfl)
    (by simp only [compressBufferOptimally, optBuild_full, Nat.sub_zero,
          List.length_cons]
        omega)
  rw [show (0 : Nat) - 0 = 0 from rfl, readBytes_zero] at H
  rw [Nat.sub_zero] at H
  simp only [compressBufferOptimally, optBuild_full, List.length_cons] at H
  simp only [uncompressBuffer, compressBufferOptimally, List.headD_cons, List.tail_cons,
    List.length_cons, if_pos rfl, if_true, eq_self_iff_true, optBuild_full]
  exact H

/-- Claim C1.  For every input buffer (read through f) of valid length
(MIN_SIZE ≤ inLen ≤ MAX_SIZE) and either parsing mode, decompressing the
compressed stream with the declared input length equal to the stream length
succeeds and reproduces exactly the inLen input bytes the encoder read. -/
theorem c1_roundtrip (f g : Nat → Nat) (inLen : Nat)
    (hlo : MIN_SIZE ≤ inLen) (hhi : inLen ≤ MAX_SIZE) :
    uncompressBuffer (compressBufferGreedily f inLen)
        (compressBufferGreedily f inLen).length g = some (readBytes f 0 inLen) ∧
    uncompressBuffer (compressBufferOptimally f inLen)
        (compressBufferOptimally f inLen).length g = some (readBytes f 0 inLen) :=
  ⟨greedy_roundtrip f g inLen hhi, optimal_roundtrip f g inLen hhi⟩

theorem c1_roundtrip_witness :
    uncompressBuffer (compressBufferGreedily (fun _ => 0) 8184)
        (compressBufferGreedily (fun _ => 0) 8184).length (fun _ => 0)
        = some (readBytes (fun _ => 0) 0 8184) ∧
    uncompressBuffer (compressBufferOptimally (fun _ => 0) 8184)
        (compressBufferOptimally (fun _ => 0) 8184).length (fun _ => 0)
        = some (readBytes (fun _ => 0) 0 8184) :=
  c1_roundtrip (fun _ => 0) (fun _ => 0) 8184 (by decide) (by decide)


/-! ### Expansion bounds -/

theorem greedyLoop_length_bound (f : Nat → Nat) (inLen : Nat) :
    ∀ fuel inPos numLits litSrc,
      inLen < inPos + fuel → inPos ≤ inLen → numLits ≤ MAX_LITERAL_LEN →
      (greedyLoop f inLen fuel inPos numLits litSrc).length ≤
        (inLen - inPos) + numLits + 3 + 3 * ((inLen - inPos + numLits) / 255) := by
  intro fuel
  induction fuel with
  | zero => intro inPos numLits litSrc h1 h2 h3; omega
  | succ fuel0 ih =>
    intro inPos numLits litSrc hfuel hpos h255
    rw [show MAX_LITERAL_LEN = 255 from rfl] at h255
    by_cases hin : inPos < inLen
    · by_cases hm : (findLongestMatch f inLen inPos).1 < MIN_MATCH_LEN
      · by_cases hfl : numLits = MAX_LITERAL_LEN
        · have hfl' : numLits = 255 := by
            rw [show MAX_LITERAL_LEN = 255 from rfl] at hfl; exact hfl
          simp only [greedyLoop_succ, if_pos hin, if_pos hm, if_pos hfl, if_true,
            eq_self_iff_true, List.length_cons, List.length_append, readBytes_length]
          have H := ih (inPos + 1) 1 inPos (by omega) (by omega)
            (by rw [show MAX_LITERAL_LEN = 255 from rfl]; omega)
          omega
        · simp only [greedyLoop_succ, if_pos hin, if_pos hm, if_neg hfl]
          have H := ih (inPos + 1) (numLits + 1) (if numLits = 0 then inPos else litSrc)
            (by omega) (by omega)
            (by rw [show MAX_LITERAL_LEN = 255 from rfl] at hfl ⊢; omega)
          omega
      · have hm4 : MIN_MATCH_LEN ≤ (findLongestMatch f inLen inPos).1 :=
          Nat.le_of_not_lt hm
        have hm4' : 4 ≤ (findLongestMatch f inLen inPos).1 := by
          rw [show MIN_MATCH_LEN = 4 from rfl] at hm4; exact hm4
        have hcap := findLongestMatch_le_cap f inLen inPos
        have hcap' : (findLongestMatch f inLen inPos).1 ≤ inLen - inPos ∧
            (findLongestMatch f inLen inPos).1 ≤ 255 := by
          rw [show MAX_MATCH_LEN = 255 from rfl] at hcap; omega
        simp only [greedyLoop_succ, if_pos hin, if_neg hm,
          if_neg (show ¬((findLongestMatch f inLen inPos).1 < 4) by omega),
          List.length_cons, List.length_append, List.length_nil, readBytes_length,
          show MIN_MATCH_LEN = 4 from rfl, show INITIAL_LEN = 15 from rfl]
        have H := ih (inPos + (findLongestMatch f inLen inPos).1) 0 0
          (by omega) (by omega) (Nat.zero_le _)
        have hdiv : (inLen - (inPos + (findLongestMatch f inLen inPos).1) + 0) / 255 ≤
            (inLen - inPos + numLits) / 255 := Nat.div_le_div_right (by omega)
        by_cases he1 : numLits ≥ 15
        · by_cases he2 : (findLongestMatch f inLen inPos).1 - 4 ≥ 15
          · simp only [if_pos he1, if_pos he2, List.length_cons, List.length_nil]
            omega
          · simp only [if_pos he1, if_neg he2, List.length_cons, List.length_nil]
            omega
        · by_cases he2 : (findLongestMatch f inLen inPos).1 - 4 ≥ 15
          · simp only [if_neg he1, if_pos he2, List.length_cons, List.length_nil]
            omega
          · simp only [if_neg he1, if_neg he2, List.length_cons, List.length_nil]
            omega
    · simp only [greedyLoop_succ, if_neg hin, List.length_append, readBytes_length,
        show INITIAL_LEN = 15 from rfl]
      by_cases hl15 : numLits < 15
      · simp only [if_pos hl15, List.length_cons, List.length_nil]
        omega
      · simp only [if_neg hl15, List.length_cons, List.length_nil]
        omega

theorem compressBufferGreedily_length_bound (f : Nat → Nat) (inLen : Nat)
    (hle : inLen ≤ MAX_SIZE) :
    (compressBufferGreedily f inLen).length ≤ inLen + MAX_EXPANSION := by
  rw [show MAX_SIZE = 8192 from rfl] at hle
  have H := greedyLoop_length_bound f inLen (inLen + 1) 0 0 0 (by omega) (by omega)
    (Nat.zero_le _)
  simp only [compressBufferGreedily, List.length_cons]
  rw [show MAX_EXPANSION = 100 from rfl]
  omega


/-- The literal-run chain structure of the DP: a literal run of length L
recorded at position i is followed (at i+L) by the end of the buffer, by a
match node, or by a full-length (255) literal node.  This is why the
emission pass only ever flushes runs of at most MAX_LITERAL_LEN literals. -/
theorem optNode_chain (f : Nat → Nat) (inLen : Nat) :
    ∀ L i, i < inLen →
      (optStep f inLen i (optPass1 f inLen (inLen - (i + 1)))).literalLength = L →
      i + L = inLen ∨
      (optStep f inLen (i + L) (optPass1 f inLen (inLen - (i + L + 1)))).matchLength ≠ 0 ∨
      (optStep f inLen (i + L) (optPass1 f inLen (inLen - (i + L + 1)))).literalLength
        = MAX_LITERAL_LEN := by
  intro L
  induction L with
  | zero =>
    intro i hi hL
    obtain ⟨h1, _, _⟩ := optStep_lit_wf f inLen (inLen - i) (by omega) (by omega)
    rw [show inLen - (inLen - i) = i from by omega,
      show inLen - i - 1 = inLen - (i + 1) from by omega] at h1
    omega
  | succ L0 ih =>
    intro i hi hL
    rw [optStep_literalLength] at hL
    by_cases h1 : i = inLen - 1
    · rw [if_pos h1] at hL
      left
      omega
    · rw [if_neg h1] at hL
      by_cases hend : i + 1 = inLen
      · omega
      · have hnxt : nthD (optPass1 f inLen (inLen - (i + 1))) 0 =
            optStep f inLen (i + 1) (optPass1 f inLen (inLen - (i + 2))) := by
          rw [show inLen - (i + 1) = (inLen - (i + 2)) + 1 from by omega,
            optPass1_succ, nthD_cons_zero,
            show inLen - ((inLen - (i + 2)) + 1) = i + 1 from by omega]
        rw [hnxt] at hL
        by_cases h2 : (optStep f inLen (i + 1)
            (optPass1 f inLen (inLen - (i + 2)))).matchLength ≠ 0
        · rw [if_pos h2] at hL
          right; left
          rw [show i + (L0 + 1) = i + 1 from by omega]
          rw [show inLen - (i + 1 + 1) = inLen - (i + 2) from by omega]
          exact h2
        · rw [if_neg h2] at hL
          by_cases h3 : (optStep f inLen (i + 1)
              (optPass1 f inLen (inLen - (i + 2)))).literalLength = MAX_LITERAL_LEN
          · rw [if_pos h3] at hL
            right; right
            rw [show i + (L0 + 1) = i + 1 from by omega]
            rw [show inLen - (i + 1 + 1) = inLen - (i + 2) from by omega]
            exact h3
          · rw [if_neg h3] at hL
            have hL0 : (optStep f inLen (i + 1)
                (optPass1 f inLen (inLen - (i + 2)))).literalLength = L0 := by omega
            have H := ih (i + 1) (by omega) (by
              rw [show inLen - (i + 1 + 1) = inLen - (i + 2) from by omega]
              exact hL0)
            rw [show i + 1 + L0 = i + (L0 + 1) from by omega] at H
            exact H

theorem optEmit_length_bound (f : Nat → Nat) (inLen : Nat) (hle : inLen ≤ MAX_SIZE) :
    ∀ fuel i numLits litSrc,
      inLen < i + fuel → i ≤ inLen → numLits ≤ MAX_LITERAL_LEN →
      (i < inLen →
        numLits ≠ 0 →
        (optStep f inLen i (optPass1 f inLen (inLen - (i + 1)))).matchLength = 0 →
        (optStep f inLen i (optPass1 f inLen (inLen - (i + 1)))).literalLength =
          MAX_LITERAL_LEN) →
      (optEmit f inLen fuel (optPass1 f inLen (inLen - i)) i numLits litSrc).length ≤
        (inLen - i) + numLits + 3 + 3 * ((inLen - i) / 255) := by
  rw [show MAX_SIZE = 8192 from rfl] at hle
  intro fuel
  induction fuel with
  | zero => intro i numLits litSrc h1 h2 h3 h4; omega
  | succ fuel0 ih =>
    intro i numLits litSrc hfuel hpos h255 hinv
    rw [show MAX_LITERAL_LEN = 255 from rfl] at h255
    by_cases hi : i < inLen
    · have hk : inLen - i = (inLen - (i + 1)) + 1 := by omega
      simp only [optEmit_succ, if_pos hi]
      rw [hk]
      simp only [optPass1_headD]
      rw [show inLen - ((inLen - (i + 1)) + 1) = i from by omega]
      obtain ⟨hl1, hl2, hl3⟩ := optStep_lit_wf f inLen (inLen - i) (by omega) (by omega)
      rw [show inLen - (inLen - i) = i from by omega,
        show inLen - i - 1 = inLen - (i + 1) from by omega] at hl1 hl2 hl3
      rw [show MAX_LITERAL_LEN = 255 from rfl] at hl2
      by_cases hml : (optStep f inLen i (optPass1 f inLen (inLen - (i + 1)))).matchLength = 0
      · -- literal node
        simp only [if_pos hml, optPass1_drop]
        rw [show (inLen - (i + 1)) + 1 -
            (optStep f inLen i (optPass1 f inLen (inLen - (i + 1)))).literalLength =
            inLen - (i +
              (optStep f inLen i (optPass1 f inLen (inLen - (i + 1)))).literalLength)
          from by omega]
        have hchain := optNode_chain f inLen
          (optStep f inLen i (optPass1 f inLen (inLen - (i + 1)))).literalLength i hi rfl
        have hinv' : i + (optStep f inLen i
              (optPass1 f inLen (inLen - (i + 1)))).literalLength < inLen →
            (optStep f inLen i (optPass1 f inLen (inLen - (i + 1)))).literalLength ≠ 0 →
            (optStep f inLen
              (i + (optStep f inLen i (optPass1 f inLen (inLen - (i + 1)))).literalLength)
              (optPass1 f inLen (inLen - (i +
                (optStep f inLen i (optPass1 f inLen (inLen - (i + 1)))).literalLength
                + 1)))).matchLength = 0 →
            (optStep f inLen
              (i + (optStep f inLen i (optPass1 f inLen (inLen - (i + 1)))).literalLength)
              (optPass1 f inLen (inLen - (i +
                (optStep f inLen i (optPass1 f inLen (inLen - (i + 1)))).literalLength
                + 1)))).literalLength = MAX_LITERAL_LEN := by
          intro ha hb hc
          rcases hchain with h | h | h
          · omega
          · exact absurd hc h
          · exact h
        have H := ih (i +
            (optStep f inLen i (optPass1 f inLen (inLen - (i + 1)))).literalLength)
          (optStep f inLen i (optPass1 f inLen (inLen - (i + 1)))).literalLength i
          (by omega) (by omega) (by rw [show MAX_LITERAL_LEN = 255 from rfl]; omega)
          hinv'
        have hdiv : (inLen - (i +
            (optStep f inLen i (optPass1 f inLen (inLen - (i + 1)))).literalLength))
            / 255 ≤ (inLen - i) / 255 := Nat.div_le_div_right (by omega)
        by_cases hnz : numLits = 0
        · simp only [if_neg (show ¬(numLits ≠ 0) from by omega), List.nil_append]
          omega
        · have h255eq : (optStep f inLen i
              (optPass1 f inLen (inLen - (i + 1)))).literalLength = 255 := by
            have := hinv hi hnz hml
            rw [show MAX_LITERAL_LEN = 255 from rfl] at this
            exact this
          have hdiv2 : (inLen - (i + 255)) / 255 + 1 = (inLen - i) / 255 := by omega
          simp only [if_pos (show numLits ≠ 0 from hnz), List.length_append,
            readBytes_length]
          by_cases hl15 : numLits < INITIAL_LEN
          · simp only [if_pos hl15, List.length_cons, List.length_nil]
            rw [h255eq] at H ⊢
            omega
          · simp only [if_neg hl15, List.length_cons, List.length_nil]
            rw [h255eq] at H ⊢
            omega
      · -- match node
        obtain ⟨hm1, hm2, hm4⟩ := optStep_match_spec f inLen i
          (optPass1 f inLen (inLen - (i + 1))) hml
        have hm4' : 4 ≤ (findLongestMatch f inLen i).1 := by
          rw [show MIN_MATCH_LEN = 4 from rfl] at hm4; exact hm4
        have hcap := findLongestMatch_le_cap f inLen i
        have hcap' : (findLongestMatch f inLen i).1 ≤ inLen - i ∧
            (findLongestMatch f inLen i).1 ≤ 255 := by
          rw [show MAX_MATCH_LEN = 255 from rfl] at hcap; omega
        simp only [if_neg hml, hm1, hm2,
          if_neg (show ¬((findLongestMatch f inLen i).1 = 0) by omega), optPass1_drop,
          List.length_cons, List.length_append, List.length_nil, readBytes_length,
          show MIN_MATCH_LEN = 4 from rfl, show INITIAL_LEN = 15 from rfl]
        rw [show (inLen - (i + 1)) + 1 - (findLongestMatch f inLen i).1 =
            inLen - (i + (findLongestMatch f inLen i).1) from by omega]
        have H := ih (i + (findLongestMatch f inLen i).1) 0 0
          (by omega) (by omega) (Nat.zero_le _) (by intro _ hb _; exact absurd rfl hb)
        have hdiv : (inLen - (i + (findLongestMatch f inLen i).1)) / 255 ≤
            (inLen - i) / 255 := Nat.div_le_div_right (by omega)
        by_cases he1 : numLits ≥ 15
        · by_cases he2 : (findLongestMatch f inLen i).1 - 4 ≥ 15
          · simp only [if_pos he1, if_pos he2, List.length_cons, List.length_nil]
            omega
          · simp only [if_pos he1, if_neg he2, List.length_cons, List.length_nil]
            omega
        · by_cases he2 : (findLongestMatch f inLen i).1 - 4 ≥ 15
          · simp only [if_neg he1, if_pos he2, List.length_cons, List.length_nil]
            omega
          · simp only [if_neg he1, if_neg he2, List.length_cons, List.length_nil]
            omega
    · simp only [optEmit_succ, if_neg hi, List.length_append, readBytes_length,
        show INITIAL_LEN = 15 from rfl]
      by_cases hl15 : numLits < 15
      · simp only [if_pos hl15, List.length_cons, List.length_nil]
        omega
      · simp only [if_neg hl15, List.length_cons, List.length_nil]
        omega

theorem compressBufferOptimally_length_bound (f : Nat → Nat) (inLen : Nat)
    (hle : inLen ≤ MAX_SIZE) :
    (compressBufferOptimally f inLen).length ≤ inLen + MAX_EXPANSION := by
  have H := optEmit_length_bound f inLen hle (inLen + 1) 0 0 0 (by omega) (by omega)
    (Nat.zero_le _) (by intro _ hb _; exact absurd rfl hb)
  rw [Nat.sub_zero] at H
  rw [show MAX_SIZE = 8192 from rfl] at hle
  simp only [compressBufferOptimally, optBuild_full, List.length_cons]
  rw [show MAX_EXPANSION = 100 from rfl]
  omega


/-- Claim C2.  For every input buffer of valid length (MIN_SIZE to MAX_SIZE
bytes) and either parsing mode, the compressed output is at most
MAX_EXPANSION = 100 bytes longer than the input. -/
theorem c2_expansion_bound (f : Nat → Nat) (inLen : Nat)
    (hlo : MIN_SIZE ≤ inLen) (hhi : inLen ≤ MAX_SIZE) :
    (compressBufferGreedily f inLen).length ≤ inLen + MAX_EXPANSION ∧
    (compressBufferOptimally f inLen).length ≤ inLen + MAX_EXPANSION :=
  ⟨compressBufferGreedily_length_bound f inLen hhi,
    compressBufferOptimally_length_bound f inLen hhi⟩

theorem c2_expansion_bound_witness :
    (compressBufferGreedily (fun _ => 7) 8192).length ≤ 8192 + MAX_EXPANSION ∧
    (compressBufferOptimally (fun _ => 7) 8192).length ≤ 8192 + MAX_EXPANSION :=
  c2_expansion_bound (fun _ => 7) 8192 (by decide) (by decide)


/-! ### Literal extension bytes never exceed 240 (claim C8) -/

theorem litExtScan_succ (fuel : Nat) (inp : List Nat) :
    litExtScan (fuel + 1) inp =
      (let mixedLen := inp.headD 0
       let inp1 := inp.tail
       let litExt := mixedLen >>> 4 = INITIAL_LEN
       let extByte := inp1.headD 0
       let literalLen := if litExt then INITIAL_LEN + extByte else mixedLen >>> 4
       let inp2 := if litExt then inp1.tail else inp1
       let extOk := if litExt then decide (extByte ≤ 240) else true
       let inp3 := inp2.drop literalLen
       let matchNib := mixedLen &&& 0x0f
       extOk &&
         (if matchNib = INITIAL_LEN then
           let addon := inp3.headD 0
           if addon = EMPTY_MATCH_TOKEN then litExtScan fuel inp3.tail
           else if addon = EOD_MATCH_TOKEN then true
           else litExtScan fuel (inp3.tail.drop 2)
         else litExtScan fuel (inp3.drop 2))) := rfl

theorem scan_match_chunk (o1 o2 fd n a : Nat) (lits rest : List Nat)
    (hn : n ≤ 255) (hl : lits.length = n) (ha4 : a ≤ 251) :
    litExtScan (fd + 1)
      (((if a ≤ INITIAL_LEN then a else INITIAL_LEN) |||
          ((if n ≤ INITIAL_LEN then n else INITIAL_LEN) <<< 4)) ::
        ((if n ≥ INITIAL_LEN then [n - INITIAL_LEN] else []) ++
          (lits ++ ((if a ≥ INITIAL_LEN then [a - INITIAL_LEN] else []) ++
            (o1 :: (o2 :: rest))))))
      = litExtScan fd rest := by
  by_cases h2 : 15 ≤ n
  · by_cases h3 : 15 ≤ a
    · have hhiv : (if n ≤ 15 then n else 15) = 15 := by split <;> omega
      have hlov : (if a ≤ 15 then a else 15) = 15 := by split <;> omega
      rw [litExtScan_succ]
      simp only [show INITIAL_LEN = 15 from rfl, show EMPTY_MATCH_TOKEN = 253 from rfl,
        show EOD_MATCH_TOKEN = 254 from rfl, ge_iff_le, if_pos h2, if_pos h3,
        hhiv, hlov,
        mixed_hi 15 15 (by omega) (by omega), mixed_lo 15 15 (by omega) (by omega),
        List.nil_append, List.cons_append, List.headD_cons, List.tail_cons,
        if_true, eq_self_iff_true,
        show 15 + (n - 15) = n from by omega, List.drop_left' hl,
        decide_eq_true (show n - 15 ≤ 240 by omega),
        if_neg (show ¬(a - 15 = 253) by omega), if_neg (show ¬(a - 15 = 254) by omega),
        decide_eq_true_eq, Bool.true_and, List.drop_succ_cons, List.drop_zero]
    · have hhiv : (if n ≤ 15 then n else 15) = 15 := by split <;> omega
      rw [litExtScan_succ]
      simp only [show INITIAL_LEN = 15 from rfl, show EMPTY_MATCH_TOKEN = 253 from rfl,
        show EOD_MATCH_TOKEN = 254 from rfl, ge_iff_le, if_pos h2, if_neg h3,
        if_pos (show a ≤ 15 by omega), hhiv,
        mixed_hi 15 a (by omega) (by omega), mixed_lo 15 a (by omega) (by omega),
        List.nil_append, List.cons_append, List.headD_cons, List.tail_cons,
        if_true, eq_self_iff_true,
        show 15 + (n - 15) = n from by omega, List.drop_left' hl,
        decide_eq_true (show n - 15 ≤ 240 by omega),
        if_neg (show ¬(a = 15) by omega),
        decide_eq_true_eq, Bool.true_and, List.drop_succ_cons, List.drop_zero]
  · by_cases h3 : 15 ≤ a
    · have hlov : (if a ≤ 15 then a else 15) = 15 := by split <;> omega
      rw [litExtScan_succ]
      simp only [show INITIAL_LEN = 15 from rfl, show EMPTY_MATCH_TOKEN = 253 from rfl,
        show EOD_MATCH_TOKEN = 254 from rfl, ge_iff_le, if_neg h2,
        if_pos (show n ≤ 15 by omega), if_pos h3, hlov,
        mixed_hi n 15 (by omega) (by omega), mixed_lo n 15 (by omega) (by omega),
        List.nil_append, List.cons_append, List.headD_cons, List.tail_cons,
        if_neg (show ¬(n = 15) by omega), if_true, eq_self_iff_true,
        List.drop_left' hl,
        if_neg (show ¬(a - 15 = 253) by omega), if_neg (show ¬(a - 15 = 254) by omega),
        Bool.true_and, List.drop_succ_cons, List.drop_zero]
    · rw [litExtScan_succ]
      simp only [show INITIAL_LEN = 15 from rfl, show EMPTY_MATCH_TOKEN = 253 from rfl,
        show EOD_MATCH_TOKEN = 254 from rfl, ge_iff_le, if_neg h2,
        if_pos (show n ≤ 15 by omega), if_neg h3, if_pos (show a ≤ 15 by omega),
        mixed_hi n a (by omega) (by omega), mixed_lo n a (by omega) (by omega),
        List.nil_append, List.cons_append, List.headD_cons, List.tail_cons,
        if_neg (show ¬(n = 15) by omega), if_neg (show ¬(a = 15) by omega),
        List.drop_left' hl, Bool.true_and, List.drop_succ_cons, List.drop_zero]

theorem scan_literal_chunk (fd n : Nat) (lits rest : List Nat)
    (hn : n ≤ 255) (hl : lits.length = n) :
    litExtScan (fd + 1)
      ((if n < INITIAL_LEN then [(n <<< 4) ||| 0x0f]
        else [0xff, n - INITIAL_LEN]) ++ (lits ++ (EMPTY_MATCH_TOKEN :: rest)))
      = litExtScan fd rest := by
  by_cases h2 : 15 ≤ n
  · rw [litExtScan_succ]
    simp only [show INITIAL_LEN = 15 from rfl, show EMPTY_MATCH_TOKEN = 253 from rfl,
      show EOD_MATCH_TOKEN = 254 from rfl,
      if_neg (show ¬(n < 15) by omega),
      show (0xff : Nat) >>> 4 = 15 from by decide,
      show (0xff : Nat) &&& 0x0f = 15 from by decide,
      List.nil_append, List.cons_append, List.headD_cons, List.tail_cons,
      if_true, eq_self_iff_true,
      show 15 + (n - 15) = n from by omega, List.drop_left' hl,
      decide_eq_true (show n - 15 ≤ 240 by omega),
      decide_eq_true_eq, Bool.true_and]
  · rw [litExtScan_succ]
    simp only [show INITIAL_LEN = 15 from rfl, show EMPTY_MATCH_TOKEN = 253 from rfl,
      show EOD_MATCH_TOKEN = 254 from rfl,
      if_pos (show n < 15 by omega),
      mixed_hi2 n 15 (by omega) (by omega), mixed_lo2 n 15 (by omega) (by omega),
      List.nil_append, List.cons_append, List.headD_cons, List.tail_cons,
      if_neg (show ¬(n = 15) by omega), if_true, eq_self_iff_true,
      List.drop_left' hl, Bool.true_and]

theorem scan_eod_chunk (fd n : Nat) (lits : List Nat)
    (hn : n ≤ 255) (hl : lits.length = n) :
    litExtScan (fd + 1)
      ((if n < INITIAL_LEN then [(n <<< 4) ||| 0x0f]
        else [0xff, n - INITIAL_LEN]) ++ (lits ++ [EOD_MATCH_TOKEN])) = true := by
  by_cases h2 : 15 ≤ n
  · rw [litExtScan_succ]
    simp only [show INITIAL_LEN = 15 from rfl, show EMPTY_MATCH_TOKEN = 253 from rfl,
      show EOD_MATCH_TOKEN = 254 from rfl,
      if_neg (show ¬(n < 15) by omega),
      show (0xff : Nat) >>> 4 = 15 from by decide,
      show (0xff : Nat) &&& 0x0f = 15 from by decide,
      List.nil_append, List.cons_append, List.headD_cons, List.tail_cons,
      if_true, eq_self_iff_true,
      show 15 + (n - 15) = n from by omega, List.drop_left' hl,
      decide_eq_true (show n - 15 ≤ 240 by omega),
      if_neg (show ¬((254 : Nat) = 253) by omega),
      decide_eq_true_eq, Bool.true_and]
  · rw [litExtScan_succ]
    simp only [show INITIAL_LEN = 15 from rfl, show EMPTY_MATCH_TOKEN = 253 from rfl,
      show EOD_MATCH_TOKEN = 254 from rfl,
      if_pos (show n < 15 by omega),
      mixed_hi2 n 15 (by omega) (by omega), mixed_lo2 n 15 (by omega) (by omega),
      List.nil_append, List.cons_append, List.headD_cons, List.tail_cons,
      if_neg (show ¬(n = 15) by omega), if_true, eq_self_iff_true,
      List.drop_left' hl,
      if_neg (show ¬((254 : Nat) = 253) by omega), Bool.true_and]


theorem greedyLoop_scan (f : Nat → Nat) (inLen : Nat) :
    ∀ fuel fd inPos numLits litSrc,
      inLen < inPos + fuel → inPos ≤ inLen → numLits ≤ MAX_LITERAL_LEN →
      (greedyLoop f inLen fuel inPos numLits litSrc).length < fd →
      litExtScan fd (greedyLoop f inLen fuel inPos numLits litSrc) = true := by
  intro fuel
  induction fuel with
  | zero => intro fd inPos numLits litSrc h1 h2 h3 h4; omega
  | succ fuel0 ih =>
    intro fd inPos numLits litSrc hfuel hpos h255 hlen
    rw [show MAX_LITERAL_LEN = 255 from rfl] at h255
    have hfd1 : fd = (fd - 1) + 1 := by omega
    by_cases hin : inPos < inLen
    · by_cases hm : (findLongestMatch f inLen inPos).1 < MIN_MATCH_LEN
      · by_cases hfl : numLits = MAX_LITERAL_LEN
        · subst hfl
          simp only [greedyLoop_succ, if_pos hin, if_pos hm, if_pos rfl, if_true,
            eq_self_iff_true] at hlen ⊢
          have heq := scan_literal_chunk (fd - 1) MAX_LITERAL_LEN
            (readBytes f litSrc MAX_LITERAL_LEN)
            (greedyLoop f inLen fuel0 (inPos + 1) 1 inPos) (by decide)
            (readBytes_length f litSrc MAX_LITERAL_LEN)
          simp only [if_neg (show ¬(MAX_LITERAL_LEN < INITIAL_LEN) by decide),
            List.cons_append, List.nil_append] at heq
          rw [hfd1, heq]
          simp only [List.length_cons, List.length_append, readBytes_length] at hlen
          exact ih (fd - 1) (inPos + 1) 1 inPos (by omega) (by omega) (by decide)
            (by omega)
        · simp only [greedyLoop_succ, if_pos hin, if_pos hm, if_neg hfl] at hlen ⊢
          exact ih fd (inPos + 1) (numLits + 1)
            (if numLits = 0 then inPos else litSrc) (by omega) (by omega)
            (by rw [show MAX_LITERAL_LEN = 255 from rfl] at hfl ⊢; omega) hlen
      · have hm4 : MIN_MATCH_LEN ≤ (findLongestMatch f inLen inPos).1 :=
          Nat.le_of_not_lt hm
        have hm4' : 4 ≤ (findLongestMatch f inLen inPos).1 := by
          rw [show MIN_MATCH_LEN = 4 from rfl] at hm4; exact hm4
        have hcap := findLongestMatch_le_cap f inLen inPos
        have hcap' : (findLongestMatch f inLen inPos).1 ≤ inLen - inPos ∧
            (findLongestMatch f inLen inPos).1 ≤ 255 := by
          rw [show MAX_MATCH_LEN = 255 from rfl] at hcap; omega
        simp only [greedyLoop_succ, if_pos hin, if_neg hm] at hlen ⊢
        have heq := scan_match_chunk ((findLongestMatch f inLen inPos).2 &&& 0xff)
          (((findLongestMatch f inLen inPos).2 >>> 8) &&& 0xff) (fd - 1) numLits
          ((findLongestMatch f inLen inPos).1 - MIN_MATCH_LEN)
          (readBytes f litSrc numLits)
          (greedyLoop f inLen fuel0 (inPos + (findLongestMatch f inLen inPos).1) 0 0)
          (by omega) (readBytes_length f litSrc numLits)
          (by rw [show MIN_MATCH_LEN = 4 from rfl]; omega)
        rw [hfd1, heq]
        simp only [List.length_cons, List.length_append, readBytes_length] at hlen
        exact ih (fd - 1) (inPos + (findLongestMatch f inLen inPos).1) 0 0
          (by omega) (by omega) (Nat.zero_le _) (by omega)
    · simp only [greedyLoop_succ, if_neg hin] at hlen ⊢
      rw [hfd1]
      exact scan_eod_chunk (fd - 1) numLits (readBytes f litSrc numLits) (by omega)
        (readBytes_length f litSrc numLits)

theorem optEmit_scan (f : Nat → Nat) (inLen : Nat) (hle : inLen ≤ MAX_SIZE) :
    ∀ fuel fd i numLits litSrc,
      inLen < i + fuel → i ≤ inLen → numLits ≤ MAX_LITERAL_LEN →
      (optEmit f inLen fuel (optPass1 f inLen (inLen - i)) i numLits litSrc).length < fd →
      litExtScan fd
        (optEmit f inLen fuel (optPass1 f inLen (inLen - i)) i numLits litSrc) = true := by
  rw [show MAX_SIZE = 8192 from rfl] at hle
  intro fuel
  induction fuel with
  | zero => intro fd i numLits litSrc h1 h2 h3 h4; omega
  | succ fuel0 ih =>
    intro fd i numLits litSrc hfuel hpos h255 hlen
    rw [show MAX_LITERAL_LEN = 255 from rfl] at h255
    have hfd1 : fd = (fd - 1) + 1 := by omega
    by_cases hi : i < inLen
    · have hk : inLen - i = (inLen - (i + 1)) + 1 := by omega
      simp only [optEmit_succ, if_pos hi] at hlen ⊢
      rw [hk] at hlen ⊢
      simp only [optPass1_headD] at hlen ⊢
      rw [show inLen - ((inLen - (i + 1)) + 1) = i from by omega] at hlen ⊢
      obtain ⟨hl1, hl2, hl3⟩ := optStep_lit_wf f inLen (inLen - i) (by omega) (by omega)
      rw [show inLen - (inLen - i) = i from by omega,
        show inLen - i - 1 = inLen - (i + 1) from by omega] at hl1 hl2 hl3
      rw [show MAX_LITERAL_LEN = 255 from rfl] at hl2
      by_cases hml : (optStep f inLen i (optPass1 f inLen (inLen - (i + 1)))).matchLength = 0
      · simp only [if_pos hml, optPass1_drop] at hlen ⊢
        rw [show (inLen - (i + 1)) + 1 -
            (optStep f inLen i (optPass1 f inLen (inLen - (i + 1)))).literalLength =
            inLen - (i +
              (optStep f inLen i (optPass1 f inLen (inLen - (i + 1)))).literalLength)
          from by omega] at hlen ⊢
        by_cases hnz : numLits = 0
        · simp only [if_neg (show ¬(numLits ≠ 0) from by omega), List.nil_append]
            at hlen ⊢
          exact ih fd
            (i + (optStep f inLen i (optPass1 f inLen (inLen - (i + 1)))).literalLength)
            (optStep f inLen i (optPass1 f inLen (inLen - (i + 1)))).literalLength i
            (by omega) (by omega) (by rw [show MAX_LITERAL_LEN = 255 from rfl]; omega)
            hlen
        · simp only [if_pos (show numLits ≠ 0 from hnz), List.append_assoc,
            List.singleton_append] at hlen ⊢
          have heq := scan_literal_chunk (fd - 1) numLits (readBytes f litSrc numLits)
            (optEmit f inLen fuel0
              (optPass1 f inLen (inLen - (i +
                (optStep f inLen i (optPass1 f inLen (inLen - (i + 1)))).literalLength)))
              (i + (optStep f inLen i (optPass1 f inLen (inLen - (i + 1)))).literalLength)
              ((optStep f inLen i (optPass1 f inLen (inLen - (i + 1)))).literalLength) i)
            (by omega) (readBytes_length f litSrc numLits)
          rw [hfd1, heq]
          simp only [List.length_append, List.length_cons, readBytes_length] at hlen
          refine ih (fd - 1)
            (i + (optStep f inLen i (optPass1 f inLen (inLen - (i + 1)))).literalLength)
            (optStep f inLen i (optPass1 f inLen (inLen - (i + 1)))).literalLength i
            (by omega) (by omega) (by rw [show MAX_LITERAL_LEN = 255 from rfl]; omega)
            ?_
          by_cases hl15 : numLits < INITIAL_LEN
          · simp only [if_pos hl15, List.length_cons, List.length_nil] at hlen
            omega
          · simp only [if_neg hl15, List.length_cons, List.length_nil] at hlen
            omega
      · obtain ⟨hm1, hm2, hm4⟩ := optStep_match_spec f inLen i
          (optPass1 f inLen (inLen - (i + 1))) hml
        have hm4' : 4 ≤ (findLongestMatch f inLen i).1 := by
          rw [show MIN_MATCH_LEN = 4 from rfl] at hm4; exact hm4
        have hcap := findLongestMatch_le_cap f inLen i
        have hcap' : (findLongestMatch f inLen i).1 ≤ inLen - i ∧
            (findLongestMatch f inLen i).1 ≤ 255 := by
          rw [show MAX_MATCH_LEN = 255 from rfl] at hcap; omega
        simp only [if_neg hml, hm1, hm2,
          if_neg (show ¬((findLongestMatch f inLen i).1 = 0) by omega),
          optPass1_drop] at hlen ⊢
        rw [show (inLen - (i + 1)) + 1 - (findLongestMatch f inLen i).1 =
            inLen - (i + (findLongestMatch f inLen i).1) from by omega] at hlen ⊢
        have heq := scan_match_chunk ((findLongestMatch f inLen i).2 &&& 0xff)
          (((findLongestMatch f inLen i).2 >>> 8) &&& 0xff) (fd - 1) numLits
          ((findLongestMatch f inLen i).1 - MIN_MATCH_LEN)
          (readBytes f litSrc numLits)
          (optEmit f inLen fuel0
            (optPass1 f inLen (inLen - (i + (findLongestMatch f inLen i).1)))
            (i + (findLongestMatch f inLen i).1) 0 0)
          (by omega) (readBytes_length f litSrc numLits)
          (by rw [show MIN_MATCH_LEN = 4 from rfl]; omega)
        rw [hfd1, heq]
        simp only [List.length_cons, List.length_append, readBytes_length] at hlen
        exact ih (fd - 1) (i + (findLongestMatch f inLen i).1) 0 0
          (by omega) (by omega) (Nat.zero_le _) (by omega)
    · simp only [optEmit_succ, if_neg hi] at hlen ⊢
      rw [hfd1]
      exact scan_eod_chunk (fd - 1) numLits (readBytes f litSrc numLits) (by omega)
        (readBytes_length f litSrc numLits)

/-- Claim C8.  Both encoders keep every literal run at most MAX_LITERAL_LEN
bytes: scanning either compressed stream chunk by chunk, every
literal-length extension byte is at most 240. -/
theorem c8_literal_exts_bounded (f : Nat → Nat) (inLen : Nat)
    (hlo : MIN_SIZE ≤ inLen) (hhi : inLen ≤ MAX_SIZE) :
    literalExtsBounded (compressBufferGreedily f inLen) = true ∧
    literalExtsBounded (compressBufferOptimally f inLen) = true := by
  constructor
  · have H := greedyLoop_scan f inLen (inLen + 1)
      ((greedyLoop f inLen (inLen + 1) 0 0 0).length + 1 + 1) 0 0 0 (by omega)
      (Nat.zero_le _) (Nat.zero_le _) (by omega)
    simp only [literalExtsBounded, compressBufferGreedily, List.tail_cons,
      List.length_cons]
    exact H
  · have H := optEmit_scan f inLen hhi (inLen + 1)
      ((optEmit f inLen (inLen + 1) (optPass1 f inLen (inLen - 0)) 0 0 0).length + 1 + 1)
      0 0 0 (by omega) (Nat.zero_le _) (Nat.zero_le _) (by omega)
    rw [Nat.sub_zero] at H
    simp only [literalExtsBounded, compressBufferOptimally, List.tail_cons,
      List.length_cons, optBuild_full]
    exact H

theorem c8_literal_exts_bounded_witness :
    literalExtsBounded (compressBufferGreedily (fun n => n % 7) 8190) = true ∧
    literalExtsBounded (compressBufferOptimally (fun n => n % 7) 8190) = true :=
  c8_literal_exts_bounded (fun n => n % 7) 8190 (by decide) (by decide)

end Fhpack
